import Mathlib

/-!
Verification of the streaming XML parser (crate `xml`, files
`src/read.rs`, `src/read/bytes.rs`, `src/read/doctype.rs`, `src/xml.rs`).

Bytes are modelled as `Nat` (values < 256 in practice), Rust `String`s as
their UTF-8 byte lists (`List Nat`), and fallible operations return an
explicit result type.  The byte reader `Bytes<R>` is modelled first, exactly
as written; the grammar functions are then modelled over the logical byte
stream that `Bytes::next` delivers (push-back buffer first, then the
newline-normalized source), which is justified by the bridge lemmas about
`bytesNext`, `unget` and `unget_buf` proved below.
-/

namespace Xml

/-- State of `read::bytes::Bytes<R>`: the push-back buffer (the top of the
Rust `Vec` stack is the head of the list here), the last raw byte read from
the source, the pending-newline flag, the 1-based line counter, and the
remaining raw bytes of the underlying source. -/
structure BytesState where
  buf : List Nat
  lastByte : Option Nat
  newline : Bool
  line : Nat
  input : List Nat
deriving DecidableEq, Repr

/-- The source-consuming path of `Bytes::next` (the code that runs after the
push-back buffer was found empty and the pending-newline flag was folded into
the line counter), including the recursive `\r\n` skip. -/
def srcNext : Option Nat → Nat → List Nat → Option Nat × BytesState
  | last, line, [] => (none, ⟨[], last, false, line, []⟩)
  | last, line, b :: rest =>
    if b = 10 ∧ last = some 13 then srcNext (some 10) line rest
    else if b = 13 ∨ b = 10 then (some 10, ⟨[], some b, true, line, rest⟩)
    else (some b, ⟨[], some b, false, line, rest⟩)

/-- `Bytes::next`: drain the push-back buffer first; otherwise bump the line
counter if a newline is pending and then read from the source. -/
def bytesNext (s : BytesState) : Option Nat × BytesState :=
  match s.buf with
  | b :: rest => (some b, { s with buf := rest })
  | [] => srcNext s.lastByte (if s.newline then s.line + 1 else s.line) s.input

/-- `Bytes::unget`: push one byte back (LIFO). -/
def unget (s : BytesState) (b : Nat) : BytesState :=
  { s with buf := b :: s.buf }

/-- `Bytes::unget_buf`: push an ordered byte sequence back, iterating it in
reverse so that subsequent reads replay it in the original order. -/
def unget_buf (s : BytesState) (xs : List Nat) : BytesState :=
  { s with buf := xs.reverse.foldl (fun acc b => b :: acc) s.buf }

/-- `Bytes::from_reader`. -/
def bytesFromReader (raw : List Nat) : BytesState :=
  ⟨[], none, false, 1, raw⟩

/-- Read `n` bytes in sequence with `Bytes::next`. -/
def nextN : Nat → BytesState → List (Option Nat) × BytesState
  | 0, s => ([], s)
  | n + 1, s =>
    let p := bytesNext s
    let q := nextN n p.2
    (p.1 :: q.1, q.2)

/-- The newline-normalized byte sequence the source still yields, given the
last raw byte already read. -/
def drainSrc : Option Nat → List Nat → List Nat
  | _, [] => []
  | last, b :: rest =>
    if b = 10 ∧ last = some 13 then drainSrc (some 10) rest
    else if b = 13 ∨ b = 10 then 10 :: drainSrc (some b) rest
    else b :: drainSrc (some b) rest

/-- The whole logical byte sequence still to be delivered by `Bytes::next`:
push-back buffer first, then the newline-normalized source.
`bytesNext_drain` below proves this is what iterating `bytesNext` yields. -/
def drain (buf : List Nat) (last : Option Nat) (input : List Nat) : List Nat :=
  buf ++ drainSrc last input

/-- The newline normalization exactly as the specification words it: each
occurrence of `\r\n`, `\r` or `\n` yields exactly one `\n`; every other byte
passes through unchanged. -/
def newlineSpec : List Nat → List Nat
  | [] => []
  | [b] => if b = 13 ∨ b = 10 then [10] else [b]
  | b :: c :: rest =>
    if b = 13 ∧ c = 10 then 10 :: newlineSpec rest
    else if b = 13 ∨ b = 10 then 10 :: newlineSpec (c :: rest)
    else b :: newlineSpec (c :: rest)

/-- `newlineSpec` after a lone `\r` was already emitted: a directly following
`\n` is skipped. -/
def newlineSpecCR (l : List Nat) : List Nat :=
  if l.head? = some 10 then newlineSpec l.tail else newlineSpec l

theorem unget_buf_eq_append (s : BytesState) (xs : List Nat) :
    unget_buf s xs = { s with buf := xs ++ s.buf } := by
  suffices h : ∀ (xs : List Nat) (acc : List Nat),
      xs.reverse.foldl (fun acc b => b :: acc) acc = xs ++ acc by
    simp [unget_buf, h]
  intro xs
  induction xs with
  | nil => intro acc; simp
  | cons x xs ih => intro acc; simp [List.foldl_append, ih]

/-- Iterating `bytesNext` produces exactly `drain` of the current state. -/
theorem bytesNext_drain (s : BytesState) :
    drain s.buf s.lastByte s.input =
      match bytesNext s with
      | (none, _) => []
      | (some b, s') => b :: drain s'.buf s'.lastByte s'.input := by
  have aux : ∀ (input : List Nat) (last : Option Nat) (line : Nat),
      drainSrc last input =
        match srcNext last line input with
        | (none, _) => []
        | (some b, s') => b :: drain s'.buf s'.lastByte s'.input := by
    intro input
    induction input with
    | nil => intro last line; simp [drainSrc, srcNext]
    | cons b rest ih =>
      intro last line
      by_cases h1 : b = 10 ∧ last = some 13
      · simp only [drainSrc, srcNext, if_pos h1]
        exact ih (some 10) line
      · by_cases h2 : b = 13 ∨ b = 10
        · simp [drainSrc, srcNext, drain, if_neg h1, if_pos h2]
        · simp [drainSrc, srcNext, drain, if_neg h1, if_neg h2]
  match hs : s.buf with
  | b :: rest =>
    simp [drain, bytesNext, hs]
  | [] =>
    simp only [bytesNext, hs, drain, List.nil_append]
    exact aux s.input s.lastByte _

theorem newlineSpec_cons13 (l : List Nat) :
    newlineSpec (13 :: l) = 10 :: newlineSpecCR l := by
  match l with
  | [] => simp [newlineSpec, newlineSpecCR]
  | 10 :: rest => simp [newlineSpec, newlineSpecCR]
  | c :: rest =>
    by_cases hc : c = 10
    · subst hc; simp [newlineSpec, newlineSpecCR]
    · simp [newlineSpec, newlineSpecCR, hc]

theorem newlineSpec_cons10 (l : List Nat) :
    newlineSpec (10 :: l) = 10 :: newlineSpec l := by
  match l with
  | [] => simp [newlineSpec]
  | c :: rest => simp [newlineSpec]

theorem newlineSpec_cons_other {b : Nat} (hb13 : b ≠ 13) (hb10 : b ≠ 10)
    (l : List Nat) : newlineSpec (b :: l) = b :: newlineSpec l := by
  match l with
  | [] => simp [newlineSpec, hb13, hb10]
  | c :: rest => simp [newlineSpec, hb13, hb10]

theorem drainSrc_newlineSpec (input : List Nat) : ∀ last : Option Nat,
    drainSrc last input =
      if last = some 13 then newlineSpecCR input else newlineSpec input := by
  induction input with
  | nil =>
    intro last
    simp [drainSrc, newlineSpec, newlineSpecCR]
  | cons b rest ih =>
    intro last
    by_cases hl : last = some 13
    · subst hl
      simp only [if_pos rfl]
      by_cases hb10 : b = 10
      · subst hb10
        have : drainSrc (some 13) (10 :: rest) = drainSrc (some 10) rest := by
          simp [drainSrc]
        rw [this, ih (some 10)]
        simp [newlineSpecCR]
      · by_cases hb13 : b = 13
        · subst hb13
          have : drainSrc (some 13) (13 :: rest) = 10 :: drainSrc (some 13) rest := by
            simp [drainSrc]
          rw [this, ih (some 13)]
          simp [newlineSpecCR, newlineSpec_cons13]
        · have : drainSrc (some 13) (b :: rest) = b :: drainSrc (some b) rest := by
            simp [drainSrc, hb10, hb13]
          rw [this, ih (some b)]
          simp only [newlineSpecCR, List.head?_cons, List.tail_cons]
          rw [newlineSpec_cons_other hb13 hb10]
          simp [hb13, hb10]
    · simp only [if_neg hl]
      by_cases hb13 : b = 13
      · subst hb13
        have : drainSrc last (13 :: rest) = 10 :: drainSrc (some 13) rest := by
          simp [drainSrc, hl]
        rw [this, ih (some 13)]
        simp [newlineSpec_cons13]
      · by_cases hb10 : b = 10
        · subst hb10
          have : drainSrc last (10 :: rest) = 10 :: drainSrc (some 10) rest := by
            simp [drainSrc, hl]
          rw [this, ih (some 10)]
          simp [newlineSpec_cons10]
        · have : drainSrc last (b :: rest) = b :: drainSrc (some b) rest := by
            simp [drainSrc, hb13, hb10]
          rw [this, ih (some b)]
          rw [newlineSpec_cons_other hb13 hb10]
          simp [hb13]

/-- C8: after `unget_buf(xs)`, the next `xs.length` calls to `Bytes::next`
return exactly the bytes of `xs` in their original order, and the reader is
back in its previous state afterwards — in particular no byte of the
underlying source was consulted while the push-back buffer was non-empty. -/
theorem C8_unget_buf_replays (s : BytesState) (xs : List Nat) :
    nextN xs.length (unget_buf s xs) = (xs.map some, s) := by
  rw [unget_buf_eq_append]
  induction xs generalizing s with
  | nil => simp [nextN]
  | cons x xs ih =>
    have hstep : bytesNext { s with buf := (x :: xs) ++ s.buf } =
        (some x, { s with buf := xs ++ s.buf }) := by
      simp [bytesNext]
    simp only [List.length_cons, nextN, hstep, List.map_cons]
    have := ih s
    simp only [this]

/-- C5: the whole byte sequence delivered by `Bytes::next` from a fresh
reader is the input with every logical newline (`\n`, `\r` or `\r\n`)
collapsed to exactly one `\n` (the literal transcription `newlineSpec` of the
specification sentence). -/
theorem C5_newline_normalization (raw : List Nat) :
    drain (bytesFromReader raw).buf (bytesFromReader raw).lastByte
      (bytesFromReader raw).input = newlineSpec raw := by
  show drain [] none raw = newlineSpec raw
  rw [drain, drainSrc_newlineSpec]
  simp

/-! ## Byte and string helpers used by the parser (Rust std semantics) -/

/-- `u8::to_ascii_lowercase`. -/
def toLowerByte (b : Nat) : Nat :=
  if 65 ≤ b ∧ b ≤ 90 then b + 32 else b

/-- `str::make_ascii_lowercase` over the UTF-8 bytes. -/
def toLowerBytes (l : List Nat) : List Nat :=
  l.map toLowerByte

/-- The success condition of `char::from_u32`: a Unicode scalar value. -/
def isScalar (v : Nat) : Bool :=
  decide (v < 1114112 ∧ ¬(55296 ≤ v ∧ v ≤ 57343))

/-- `char::encode_utf8` of a Unicode scalar value. -/
def encodeUtf8 (v : Nat) : List Nat :=
  if v < 128 then [v]
  else if v < 2048 then [192 + v / 64, 128 + v % 64]
  else if v < 65536 then [224 + v / 4096, 128 + v / 64 % 64, 128 + v % 64]
  else [240 + v / 262144, 128 + v / 4096 % 64, 128 + v / 64 % 64, 128 + v % 64]

/-- The byte-level scanner behind `utf8Valid`: `k` is the number of
continuation bytes still expected, `(lo, hi)` the admissible range for the
next one (the first continuation byte of a sequence has a restricted range
enforcing shortest forms and excluding surrogates; later ones are
`128..191`). -/
def utf8Scan : Nat → Nat → Nat → List Nat → Bool
  | 0, _, _, [] => true
  | 0, _, _, b :: rest =>
    if b ≤ 127 then utf8Scan 0 0 0 rest
    else if 194 ≤ b ∧ b ≤ 223 then utf8Scan 1 128 191 rest
    else if b = 224 then utf8Scan 2 160 191 rest
    else if (225 ≤ b ∧ b ≤ 236) ∨ b = 238 ∨ b = 239 then utf8Scan 2 128 191 rest
    else if b = 237 then utf8Scan 2 128 159 rest
    else if b = 240 then utf8Scan 3 144 191 rest
    else if 241 ≤ b ∧ b ≤ 243 then utf8Scan 3 128 191 rest
    else if b = 244 then utf8Scan 3 128 143 rest
    else false
  | _ + 1, _, _, [] => false
  | k + 1, lo, hi, c :: rest =>
    if lo ≤ c ∧ c ≤ hi then utf8Scan k 128 191 rest else false

/-- The success condition of `String::from_utf8` (RFC 3629 well-formedness,
shortest forms only, surrogates excluded). -/
def utf8Valid (l : List Nat) : Bool :=
  utf8Scan 0 0 0 l

/-- `char::to_digit`. -/
def toDigit (radix b : Nat) : Option Nat :=
  let d :=
    if 48 ≤ b ∧ b ≤ 57 then some (b - 48)
    else if 97 ≤ b ∧ b ≤ 122 then some (b - 87)
    else if 65 ≤ b ∧ b ≤ 90 then some (b - 55)
    else none
  match d with
  | some v => if v < radix then some v else none
  | none => none

def u32Max : Nat := 4294967295

/-- The digit-accumulation loop of `u32::from_str_radix`, with the
`checked_mul` / `checked_add` overflow tests. -/
def fromStrRadixGo (radix : Nat) : Nat → List Nat → Option Nat
  | acc, [] => some acc
  | acc, b :: rest =>
    match toDigit radix b with
    | none => none
    | some d =>
      if acc * radix ≤ u32Max then
        if acc * radix + d ≤ u32Max then fromStrRadixGo radix (acc * radix + d) rest
        else none
      else none

/-- `u32::from_str_radix`: an optional leading `+` (a `-` is not stripped for
an unsigned type and then fails as an invalid digit), then one or more digits
accumulated with overflow checks; `none` models every error case. -/
def fromStrRadix (radix : Nat) (s : List Nat) : Option Nat :=
  match s with
  | [] => none
  | b :: rest =>
    if b = 43 then
      match rest with
      | [] => none
      | _ => fromStrRadixGo radix 0 rest
    else fromStrRadixGo radix 0 s

/-- `<[u8]>::ends_with`. -/
def endsWith (l sfx : List Nat) : Bool :=
  decide (sfx.length ≤ l.length) && decide (l.drop (l.length - sfx.length) = sfx)

/-! ## Public types (`src/xml.rs`) -/

inductive Feature
  | externalEntities
  | parameterEntities
  | notations
deriving DecidableEq, Repr

inductive Error
  | malformedAttlistDecl
  | malformedAttValue
  | malformedByteOrderMark
  | malformedCData
  | malformedCharData
  | malformedCharRef
  | malformedComment
  | malformedDoctype
  | malformedDoctypeEntity
  | malformedEmptyElemTag
  | malformedEndTag
  | malformedEntityDecl
  | malformedEntityRef
  | malformedEntityValue
  | malformedEq
  | malformedExternalEntity
  | malformedName
  | malformedProcInst
  | malformedStartTag
  | malformedSystemLiteral
  | malformedVersionLiteral
  | malformedXmlDecl
  | malformedYesNoLiteral
  | mismatchingStartEndTags
  | ioError
  | utf8Error
  | unexpectedEof
  | unexpectedToken
  | unmappedEntityRef
  | unsupportedEncoding
  | unsupportedFeature (f : Feature)
deriving DecidableEq, Repr

/-- `xml::Attr` (strings as UTF-8 byte lists). -/
structure Attr where
  name : List Nat
  value : List Nat
deriving DecidableEq, Repr

/-- `xml::StartTag`. -/
structure StartTagData where
  name : List Nat
  attrs : List Attr
deriving DecidableEq, Repr

/-- `xml::ProcInst`. -/
structure ProcInstData where
  target : List Nat
  inst : List Nat
deriving DecidableEq, Repr

/-- `read::Doctype`. -/
inductive Doctype
  | doctypeDecl (internalSubset : Bool)
  | entityDecl
  | elementDecl
  | attlistDecl
  | notationDecl
  | internalEnd
deriving DecidableEq, Repr

/-- `read::RawToken`. -/
inductive RawToken
  | xmlDecl
  | comment
  | procInst (p : ProcInstData)
  | doctypeDef (d : Doctype)
  | startTag (t : StartTagData)
  | endTag (n : List Nat)
  | charData (d : List Nat)
deriving DecidableEq, Repr

/-- `xml::Token`. -/
inductive Token
  | startTag (t : StartTagData)
  | endTag (n : List Nat)
  | charData (d : List Nat)
  | procInst (p : ProcInstData)
  | endOfFile
deriving DecidableEq, Repr

/-- `read::ExternalEntity`. -/
inductive ExternalEntity
  | system (sysId : List Nat)
  | publicId (pubId sysId : List Nat)
deriving DecidableEq, Repr

/-! ## The lexing layer of `Parser<R>`

Grammar functions touch only the byte reader and the `auto_close` /
`custom_entities` fields; that part of the parser is `LexState`.  The byte
reader appears through the logical byte sequence it still has to deliver
(`drain` of its state): `bytesNext` pops its head (`bytesNext_drain`),
`unget b` is `b :: stream`, and `unget_buf xs` is `xs ++ stream`
(`unget_buf_eq_append`). -/

structure LexState where
  stream : List Nat
  autoClose : Option (List Nat)
  entities : List (List Nat × List Nat)
deriving DecidableEq, Repr

/-- Result of a grammar function: success, a `xml::Error`, or out of fuel
(the modelling artifact for loops whose traversal is not structural). -/
inductive PRes (α : Type)
  | ok (a : α)
  | err (e : Error)
  | fuel
deriving DecidableEq, Repr

/-- Sequencing of grammar functions (`?`-propagation of errors). -/
def pbind {α β : Type} (m : PRes (α × LexState))
    (k : α → LexState → PRes (β × LexState)) : PRes (β × LexState) :=
  match m with
  | .ok (a, s) => k a s
  | .err e => .err e
  | .fuel => .fuel

/-- `Parser::next_byte`: next byte or `UnexpectedEof`. -/
def next_byte (s : LexState) : PRes (Nat × LexState) :=
  match s.stream with
  | [] => .err .unexpectedEof
  | b :: rest => .ok (b, { s with stream := rest })

/-- `Parser::unget_byte`. -/
def unget_byte (b : Nat) (s : LexState) : LexState :=
  { s with stream := b :: s.stream }

/-- `Parser::next_byte_is`. -/
def next_byte_is (b : Nat) (s : LexState) : PRes (Bool × LexState) :=
  pbind (next_byte s) fun c s => .ok (decide (c = b), s)

/-- The `require_byte!` macro. -/
def require_byte (b : Nat) (e : Error) (s : LexState) : PRes (Unit × LexState) :=
  pbind (next_byte_is b s) fun hit s =>
  if hit then .ok ((), s) else .err e

/-- `Parser::expect_str` (called through `require_str!`). -/
def expect_str : List Nat → LexState → PRes (Bool × LexState)
  | [], s => .ok (true, s)
  | b :: w, s =>
    pbind (next_byte_is b s) fun hit s =>
    if hit then expect_str w s else .ok (false, s)

/-- The `require_str!` macro. -/
def require_str (w : List Nat) (e : Error) (s : LexState) : PRes (Unit × LexState) :=
  pbind (expect_str w s) fun hit s =>
  if hit then .ok ((), s) else .err e

/-- `Parser::read_until`. -/
def readUntilGo (delim : Nat) : List Nat → PRes (Unit × List Nat)
  | [] => .err .unexpectedEof
  | b :: rest => if b = delim then .ok ((), rest) else readUntilGo delim rest

def read_until (delim : Nat) (s : LexState) : PRes (Unit × LexState) :=
  match readUntilGo delim s.stream with
  | .ok (_, str) => .ok ((), { s with stream := str })
  | .err e => .err e
  | .fuel => .fuel

/-- `S ::= (#x20 | #x9 | #xD | #xA)+` byte test. -/
def isWsByte (b : Nat) : Bool :=
  decide (b = 32 ∨ b = 9 ∨ b = 13 ∨ b = 10)

def wsGo : Bool → List Nat → PRes (Bool × List Nat)
  | _, [] => .err .unexpectedEof
  | sk, b :: rest =>
    if isWsByte b then wsGo true rest else .ok (sk, b :: rest)

/-- `Parser::whitespace`: skip whitespace, report whether any was skipped;
at end of input the `next_byte` error propagates. -/
def whitespace (s : LexState) : PRes (Bool × LexState) :=
  match wsGo false s.stream with
  | .ok (sk, str) => .ok (sk, { s with stream := str })
  | .err e => .err e
  | .fuel => .fuel

/-- The `require_whitespace!` macro. -/
def require_whitespace (e : Error) (s : LexState) : PRes (Unit × LexState) :=
  pbind (whitespace s) fun sk s =>
  if sk then .ok ((), s) else .err e

/-- `Parser::equals`. -/
def equals (s : LexState) : PRes (Unit × LexState) :=
  pbind (whitespace s) fun _ s =>
  pbind (require_byte 61 .malformedEq s) fun _ s =>
  pbind (whitespace s) fun _ s =>
  .ok ((), s)

/-- The single-byte name characters accepted by `Parser::name`. -/
def isNameByte (b : Nat) : Bool :=
  decide ((65 ≤ b ∧ b ≤ 90) ∨ (97 ≤ b ∧ b ≤ 122) ∨ (48 ≤ b ∧ b ≤ 57) ∨
    b = 95 ∨ b = 58 ∨ b = 46 ∨ b = 45)

def nameGo : List Nat → List Nat → PRes (List Nat × List Nat)
  | _, [] => .err .unexpectedEof
  | acc, b :: rest =>
    if isNameByte b || decide (128 < b) then nameGo (acc ++ [b]) rest
    else .ok (acc, b :: rest)

/-- `Parser::name`: greedy name scan (bytes above `0x80` are accepted
unchecked), must be non-empty and valid UTF-8. -/
def name (s : LexState) : PRes (List Nat × LexState) :=
  match nameGo [] s.stream with
  | .ok (buf, str) =>
    if buf = [] then .err .malformedName
    else if utf8Valid buf then .ok (buf, { s with stream := str })
    else .err .utf8Error
  | .err e => .err e
  | .fuel => .fuel

/-- `Parser::system_literal` scan loop. -/
def sysGo (quote : Nat) : List Nat → List Nat → PRes (List Nat × List Nat)
  | _, [] => .err .unexpectedEof
  | acc, b :: rest =>
    if b = quote then .ok (acc, rest) else sysGo quote (acc ++ [b]) rest

/-- `Parser::system_literal`. -/
def system_literal (s : LexState) : PRes (List Nat × LexState) :=
  pbind (next_byte s) fun q s =>
  if q = 39 ∨ q = 34 then
    match sysGo q [] s.stream with
    | .ok (buf, str) =>
      if utf8Valid buf then .ok (buf, { s with stream := str })
      else .err .utf8Error
    | .err e => .err e
    | .fuel => .fuel
  else .err .malformedSystemLiteral

/-- `Parser::pubid_literal` (delegates to `system_literal`). -/
def pubid_literal (s : LexState) : PRes (List Nat × LexState) :=
  system_literal s

/-- `Parser::encoding_literal` (delegates to `system_literal`). -/
def encoding_literal (s : LexState) : PRes (List Nat × LexState) :=
  system_literal s

/-- `Parser::version_literal`: a system literal that must start with `1.`,
whose remainder must parse as a `u32` in base 10. -/
def version_literal (s : LexState) : PRes (Nat × LexState) :=
  pbind (system_literal s) fun vers s =>
  match vers with
  | 49 :: 46 :: rest =>
    match fromStrRadix 10 rest with
    | some v => .ok (v, s)
    | none => .err .malformedVersionLiteral
  | _ => .err .malformedVersionLiteral

/-- `Parser::yesno_literal`. -/
def yesno_literal (s : LexState) : PRes (Bool × LexState) :=
  pbind (system_literal s) fun w s =>
  if w = [121, 101, 115] then .ok (true, s)
  else if w = [110, 111] then .ok (false, s)
  else .err .malformedYesNoLiteral

/-- `Parser::external_entity`. -/
def external_entity (s : LexState) : PRes (Option ExternalEntity × LexState) :=
  pbind (next_byte s) fun b s =>
  if b = 83 then
    pbind (require_str [89, 83, 84, 69, 77] .malformedExternalEntity s) fun _ s =>
    pbind (require_whitespace .malformedExternalEntity s) fun _ s =>
    pbind (system_literal s) fun sys s =>
    .ok (some (.system sys), s)
  else if b = 80 then
    pbind (require_str [85, 66, 76, 73, 67] .malformedExternalEntity s) fun _ s =>
    pbind (require_whitespace .malformedExternalEntity s) fun _ s =>
    pbind (pubid_literal s) fun pid s =>
    pbind (require_whitespace .malformedExternalEntity s) fun _ s =>
    pbind (system_literal s) fun sys s =>
    .ok (some (.publicId pid sys), s)
  else .ok (none, unget_byte b s)

/-- `Parser::char_ref` (radix 10 for `Decimal`, 16 for `Hex`): reads the
digit run as a name, requires `;`, decodes the code point and appends its
UTF-8 encoding to the buffer. -/
def char_ref (radix : Nat) (buf : List Nat) (s : LexState) :
    PRes (List Nat × LexState) :=
  pbind (name s) fun nm s =>
  pbind (require_byte 59 .malformedCharRef s) fun _ s =>
  match fromStrRadix radix nm with
  | some v =>
    if isScalar v then .ok (buf ++ encodeUtf8 v, s)
    else .err .malformedCharRef
  | none => .err .malformedCharRef

/-- `HashMap::get` over the custom-entity table. -/
def lookupEntity : List (List Nat × List Nat) → List Nat → Option (List Nat)
  | [], _ => none
  | (k, v) :: rest, nm => if k = nm then some v else lookupEntity rest nm

/-- `Parser::entity_ref`: the five predefined entities are appended to the
buffer; a configured custom entity's replacement is pushed back onto the
byte stream (`unget_buf`); anything else is `UnmappedEntityRef`. -/
def entity_ref (buf : List Nat) (s : LexState) : PRes (List Nat × LexState) :=
  pbind (name s) fun nm s =>
  pbind (require_byte 59 .malformedEntityRef s) fun _ s =>
  if nm = [108, 116] then .ok (buf ++ [60], s)
  else if nm = [103, 116] then .ok (buf ++ [62], s)
  else if nm = [97, 109, 112] then .ok (buf ++ [38], s)
  else if nm = [97, 112, 111, 115] then .ok (buf ++ [39], s)
  else if nm = [113, 117, 111, 116] then .ok (buf ++ [34], s)
  else
    match lookupEntity s.entities nm with
    | some v => .ok (buf, { s with stream := v ++ s.stream })
    | none => .err .unmappedEntityRef

/-- `read::TextMode`. -/
inductive TextMode
  | charDataMode
  | attValueMode
  | entityValueMode
deriving DecidableEq, Repr

/-- The scan loop of `Parser::expanded_text`. -/
def expandedTextLoop : Nat → TextMode → Nat → List Nat → LexState →
    PRes (List Nat × LexState)
  | 0, _, _, _, _ => .fuel
  | n + 1, mode, delim, buf, s =>
    pbind (next_byte s) fun b s =>
    if b = delim then
      if mode = .charDataMode then .ok (buf, unget_byte b s)
      else .ok (buf, s)
    else if b = 60 ∧ mode = .attValueMode then .err .malformedAttValue
    else if b = 38 then
      pbind (next_byte s) fun c s =>
      if c = 35 then
        pbind (next_byte s) fun d s =>
        if d = 120 then
          pbind (char_ref 16 buf s) fun buf s =>
          expandedTextLoop n mode delim buf s
        else
          pbind (char_ref 10 buf (unget_byte d s)) fun buf s =>
          expandedTextLoop n mode delim buf s
      else
        if mode = .charDataMode ∨ mode = .attValueMode then
          pbind (entity_ref buf (unget_byte c s)) fun buf s =>
          expandedTextLoop n mode delim buf s
        else expandedTextLoop n mode delim (buf ++ [38, c]) s
    else if b = 37 ∧ mode = .entityValueMode then
      .err (.unsupportedFeature .parameterEntities)
    else
      let buf2 := buf ++ [b]
      if mode = .charDataMode ∧ endsWith buf2 [93, 93, 62] then
        .err .malformedCharData
      else expandedTextLoop n mode delim buf2 s

/-- `Parser::expanded_text`. -/
def expanded_text (fuel : Nat) (mode : TextMode) (s : LexState) :
    PRes (List Nat × LexState) :=
  let run := fun (delim : Nat) (s : LexState) =>
    pbind (expandedTextLoop fuel mode delim [] s) fun buf s =>
    if utf8Valid buf then (.ok (buf, s) : PRes (List Nat × LexState))
    else .err .utf8Error
  match mode with
  | .charDataMode => run 60 s
  | _ =>
    pbind (next_byte s) fun q s =>
    if q = 39 ∨ q = 34 then run q s
    else if mode = .attValueMode then .err .malformedAttValue
    else .err .malformedEntityValue

/-- `Parser::att_value`. -/
def att_value (fuel : Nat) (s : LexState) : PRes (List Nat × LexState) :=
  expanded_text fuel .attValueMode s

/-- `Parser::char_data`. -/
def char_data (fuel : Nat) (s : LexState) : PRes (RawToken × LexState) :=
  pbind (expanded_text fuel .charDataMode s) fun t s =>
  .ok (.charData t, s)

/-- `Parser::attr`. -/
def attr (fuel : Nat) (s : LexState) : PRes (Attr × LexState) :=
  pbind (name s) fun nm s =>
  pbind (equals s) fun _ s =>
  pbind (att_value fuel s) fun v s =>
  .ok (⟨nm, v⟩, s)

/-- The attribute loop of `Parser::start_tag`. -/
def startTagLoop : Nat → List Nat → List Attr → LexState →
    PRes (RawToken × LexState)
  | 0, _, _, _ => .fuel
  | n + 1, nm, attrs, s =>
    pbind (whitespace s) fun sp s =>
    pbind (next_byte s) fun b s =>
    if b = 47 then
      pbind (require_byte 62 .malformedEmptyElemTag s) fun _ s =>
      .ok (.startTag ⟨nm, attrs⟩, { s with autoClose := some nm })
    else if b = 62 then .ok (.startTag ⟨nm, attrs⟩, s)
    else if sp then
      pbind (attr n (unget_byte b s)) fun a s =>
      startTagLoop n nm (attrs ++ [a]) s
    else .err .malformedStartTag

/-- `Parser::start_tag`. -/
def start_tag (fuel : Nat) (s : LexState) : PRes (RawToken × LexState) :=
  pbind (name s) fun nm s =>
  startTagLoop fuel nm [] s

/-- `Parser::end_tag`. -/
def end_tag (s : LexState) : PRes (RawToken × LexState) :=
  pbind (name s) fun nm s =>
  pbind (whitespace s) fun _ s =>
  pbind (require_byte 62 .malformedEndTag s) fun _ s =>
  .ok (.endTag nm, s)

/-- The scan loop of `Parser::cdata`. -/
def cdataLoop : Nat → List Nat → LexState → PRes (List Nat × LexState)
  | 0, _, _ => .fuel
  | n + 1, buf, s =>
    if endsWith buf [93, 93, 62] then .ok (buf, s)
    else
      pbind (next_byte s) fun b s =>
      cdataLoop n (buf ++ [b]) s

/-- `Parser::cdata`. -/
def cdata (fuel : Nat) (s : LexState) : PRes (RawToken × LexState) :=
  pbind (require_str [67, 68, 65, 84, 65, 91] .malformedCData s) fun _ s =>
  pbind (cdataLoop fuel [] s) fun buf s =>
  let buf2 := buf.take (buf.length - 3)
  if utf8Valid buf2 then .ok (.charData buf2, s) else .err .utf8Error

/-- The comment scan loop of `Parser::comment`. -/
def commentLoop : Nat → LexState → PRes (RawToken × LexState)
  | 0, _ => .fuel
  | n + 1, s =>
    pbind (next_byte_is 45 s) fun h1 s =>
    if h1 then
      pbind (next_byte_is 45 s) fun h2 s =>
      if h2 then
        pbind (require_byte 62 .malformedComment s) fun _ s =>
        .ok (.comment, s)
      else commentLoop n s
    else commentLoop n s

/-- `Parser::comment`. -/
def comment (fuel : Nat) (s : LexState) : PRes (RawToken × LexState) :=
  pbind (require_byte 45 .malformedComment s) fun _ s =>
  commentLoop fuel s

/-- `Parser::has_xml_prefix` (any casing of `xml` at the start, length at
least 3). -/
def hasXmlStart (target : List Nat) : Bool :=
  match target with
  | a :: b :: c :: _ =>
    decide (toLowerByte a = 120) && decide (toLowerByte b = 109) &&
      decide (toLowerByte c = 108)
  | _ => false

/-- The key loop of `Parser::xml_decl` (optional `encoding`, then optional
`standalone`, then `?>`). -/
def xmlDeclLoop : Nat → Option (List Nat) → Option Bool → LexState →
    PRes ((Option (List Nat) × Option Bool) × LexState)
  | 0, _, _, _ => .fuel
  | n + 1, enc, sd, s =>
    pbind (whitespace s) fun sp s =>
    pbind (next_byte s) fun b s =>
    if b = 101 ∧ sp ∧ enc = none ∧ sd = none then
      pbind (require_str [110, 99, 111, 100, 105, 110, 103] .malformedXmlDecl s) fun _ s =>
      pbind (equals s) fun _ s =>
      pbind (encoding_literal s) fun v s =>
      xmlDeclLoop n (some v) sd s
    else if b = 115 ∧ sp ∧ sd = none then
      pbind (require_str [116, 97, 110, 100, 97, 108, 111, 110, 101] .malformedXmlDecl s) fun _ s =>
      pbind (equals s) fun _ s =>
      pbind (yesno_literal s) fun v s =>
      xmlDeclLoop n enc (some v) s
    else if b = 63 then
      pbind (require_byte 62 .malformedXmlDecl s) fun _ s =>
      .ok ((enc, sd), s)
    else .err .malformedXmlDecl

/-- `Parser::xml_decl`. -/
def xml_decl (fuel : Nat) (s : LexState) : PRes (RawToken × LexState) :=
  pbind (require_whitespace .malformedXmlDecl s) fun _ s =>
  pbind (require_str [118, 101, 114, 115, 105, 111, 110] .malformedXmlDecl s) fun _ s =>
  pbind (equals s) fun _ s =>
  pbind (version_literal s) fun _ s =>
  pbind (xmlDeclLoop fuel none none s) fun r s =>
  match r.1 with
  | some enc =>
    if toLowerBytes enc = [117, 116, 102, 45, 56] then .ok (.xmlDecl, s)
    else .err .unsupportedEncoding
  | none => .ok (.xmlDecl, s)

/-- The instruction scan loop of `Parser::proc_inst`. -/
def procInstLoop : Nat → List Nat → LexState → PRes (List Nat × LexState)
  | 0, _, _ => .fuel
  | n + 1, buf, s =>
    if endsWith buf [63, 62] then .ok (buf, s)
    else
      pbind (next_byte s) fun b s =>
      procInstLoop n (buf ++ [b]) s

/-- `Parser::proc_inst` (dispatches to `xml_decl` for the reserved target). -/
def proc_inst (fuel : Nat) (s : LexState) : PRes (RawToken × LexState) :=
  pbind (name s) fun target s =>
  if hasXmlStart target then
    if target = [120, 109, 108] then xml_decl fuel s
    else .err .malformedProcInst
  else
    pbind (whitespace s) fun sp s =>
    if sp then
      pbind (procInstLoop fuel [] s) fun buf s =>
      let inst := buf.take (buf.length - 2)
      if utf8Valid inst then .ok (.procInst ⟨target, inst⟩, s)
      else .err .utf8Error
    else .ok (.procInst ⟨target, []⟩, s)

/-- `Parser::doctype` (the `<!DOCTYPE ...` header, stopping at `[` or `>`). -/
def doctype (s : LexState) : PRes (RawToken × LexState) :=
  pbind (require_str [68, 79, 67, 84, 89, 80, 69] .malformedDoctype s) fun _ s =>
  pbind (require_whitespace .malformedDoctype s) fun _ s =>
  pbind (name s) fun _ s =>
  pbind (whitespace s) fun sp s =>
  pbind
    (if sp then
      pbind (external_entity s) fun ext s =>
      match ext with
      | some _ => (.err (.unsupportedFeature .externalEntities) : PRes (Unit × LexState))
      | none => .ok ((), s)
    else .ok ((), s)) fun _ s =>
  pbind (next_byte s) fun b s =>
  if b = 91 then .ok (.doctypeDef (.doctypeDecl true), s)
  else if b = 62 then .ok (.doctypeDef (.doctypeDecl false), s)
  else .err .malformedDoctype

/-- `Parser::byte_order_mark`. -/
def byte_order_mark (s : LexState) : PRes (Unit × LexState) :=
  pbind (next_byte s) fun b s =>
  if b = 239 then
    pbind (next_byte_is 187 s) fun h1 s =>
    if h1 then
      pbind (next_byte_is 191 s) fun h2 s =>
      if h2 then .ok ((), s) else .err .malformedByteOrderMark
    else .err .malformedByteOrderMark
  else if b = 0 ∨ b = 254 ∨ b = 255 then .err .unsupportedEncoding
  else .ok ((), unget_byte b s)

/-- `Parser::raw_token`: a pending auto-close is delivered first, otherwise
the minimum number of bytes is read to dispatch to a grammar function. -/
def raw_token (fuel : Nat) (s : LexState) : PRes (RawToken × LexState) :=
  match s.autoClose with
  | some nm => .ok (.endTag nm, { s with autoClose := none })
  | none =>
    pbind (next_byte s) fun b s =>
    if b = 60 then
      pbind (next_byte s) fun c s =>
      if c = 47 then end_tag s
      else if c = 63 then proc_inst fuel s
      else if c = 33 then
        pbind (next_byte s) fun d s =>
        if d = 45 then comment fuel s
        else if d = 91 then cdata fuel s
        else doctype (unget_byte d s)
      else start_tag fuel (unget_byte c s)
    else char_data fuel (unget_byte b s)

/-! ## Internal DOCTYPE subset grammar (`src/read/doctype.rs`) -/

/-- The scan loop of `Parser::entity_value` (`doctype.rs`): `%` is rejected,
char references are expanded, general entity references are resolved through
`entity_ref`, everything else is copied until the closing quote. -/
def entityValueLoop : Nat → Nat → List Nat → LexState →
    PRes (List Nat × LexState)
  | 0, _, _, _ => .fuel
  | n + 1, quote, buf, s =>
    pbind (next_byte s) fun b s =>
    if b = 37 then .err (.unsupportedFeature .parameterEntities)
    else if b = 38 then
      pbind (next_byte s) fun c s =>
      if c = 35 then
        pbind (next_byte s) fun d s =>
        if d = 120 then
          pbind (char_ref 16 buf s) fun buf s =>
          entityValueLoop n quote buf s
        else
          pbind (char_ref 10 buf (unget_byte d s)) fun buf s =>
          entityValueLoop n quote buf s
      else
        pbind (entity_ref buf (unget_byte c s)) fun buf s =>
        entityValueLoop n quote buf s
    else if b = quote then .ok (buf, s)
    else entityValueLoop n quote (buf ++ [b]) s

/-- `Parser::entity_value` (`doctype.rs`). -/
def entity_value (fuel : Nat) (s : LexState) : PRes (List Nat × LexState) :=
  pbind (next_byte s) fun q s =>
  if q = 39 ∨ q = 34 then
    pbind (entityValueLoop fuel q [] s) fun buf s =>
    if utf8Valid buf then .ok (buf, s) else .err .utf8Error
  else .err .malformedEntityValue

/-- `Parser::entity_decl` (note: the `%` probe consumes one byte of the
entity name exactly as the Rust `next_byte_is` call does). -/
def entity_decl (fuel : Nat) (s : LexState) : PRes (RawToken × LexState) :=
  pbind (require_whitespace .malformedEntityDecl s) fun _ s =>
  pbind (next_byte_is 37 s) fun isPct s =>
  if isPct then .err (.unsupportedFeature .parameterEntities)
  else
    pbind (name s) fun _ s =>
    pbind (require_whitespace .malformedEntityDecl s) fun _ s =>
    pbind (external_entity s) fun ext s =>
    match ext with
    | some _ => .err (.unsupportedFeature .externalEntities)
    | none =>
      pbind (entity_value fuel s) fun _ s =>
      pbind (whitespace s) fun _ s =>
      pbind (require_byte 62 .malformedEntityDecl s) fun _ s =>
      .ok (.doctypeDef .entityDecl, s)

/-- `Parser::element_decl` (content model skipped to `>`). -/
def element_decl (s : LexState) : PRes (RawToken × LexState) :=
  pbind (require_whitespace .malformedEntityDecl s) fun _ s =>
  pbind (name s) fun _ s =>
  pbind (require_whitespace .malformedEntityDecl s) fun _ s =>
  pbind (read_until 62 s) fun _ s =>
  .ok (.doctypeDef .elementDecl, s)

/-- `Parser::attlist_decl` (attribute definitions skipped to `>`). -/
def attlist_decl (s : LexState) : PRes (RawToken × LexState) :=
  pbind (require_whitespace .malformedAttlistDecl s) fun _ s =>
  pbind (name s) fun _ s =>
  pbind (read_until 62 s) fun _ s =>
  .ok (.doctypeDef .attlistDecl, s)

/-- `Parser::notation_decl`. -/
def notation_decl (_s : LexState) : PRes (RawToken × LexState) :=
  .err (.unsupportedFeature .notations)

/-- `Parser::param_entity_ref`. -/
def param_entity_ref (_s : LexState) : PRes (RawToken × LexState) :=
  .err (.unsupportedFeature .parameterEntities)

/-- `Parser::doctype_token` (`doctype.rs`, the full internal-subset
grammar). -/
def doctype_token (fuel : Nat) (s : LexState) : PRes (RawToken × LexState) :=
  pbind (next_byte s) fun b s =>
  if b = 60 then
    pbind (next_byte s) fun c s =>
    if c = 63 then proc_inst fuel s
    else if c = 33 then
      pbind (next_byte s) fun d s =>
      if d = 45 then comment fuel s
      else
        pbind (name (unget_byte d s)) fun nm s =>
        if nm = [69, 78, 84, 73, 84, 89] then entity_decl fuel s
        else if nm = [69, 76, 69, 77, 69, 78, 84] then element_decl s
        else if nm = [65, 84, 84, 76, 73, 83, 84] then attlist_decl s
        else if nm = [78, 79, 84, 65, 84, 73, 79, 78] then notation_decl s
        else .err .malformedDoctype
    else .err .malformedDoctype
  else if b = 93 then
    pbind (whitespace s) fun _ s =>
    pbind (require_byte 62 .malformedDoctype s) fun _ s =>
    .ok (.doctypeDef .internalEnd, s)
  else if b = 37 then param_entity_ref s
  else .err .malformedDoctype

/-! ## The document state machine (`Parser::token`) -/

/-- `read::State` (`End` is `atEnd`, since `end` is reserved in Lean). -/
inductive State
  | begin
  | prologue
  | internalDoctype
  | normal
  | epilogue
  | atEnd
deriving DecidableEq, Repr

/-- The whole `Parser<R>` (minus the fields already in `LexState`). -/
structure PState where
  lex : LexState
  state : State
  lastToken : Option RawToken
  tags : List (List Nat)
deriving DecidableEq, Repr

/-- Result of `Parser::token`: also `panicked`, for the
`self.tags.pop().unwrap()` call, which panics on an empty tag stack. -/
inductive TRes (α : Type)
  | ok (a : α)
  | err (e : Error)
  | fuel
  | panicked
deriving DecidableEq, Repr

/-- Lift a grammar-function result into a `token` computation. -/
def liftT {α β : Type} (m : PRes (α × LexState))
    (k : α → LexState → TRes β) : TRes β :=
  match m with
  | .ok (a, s) => k a s
  | .err e => .err e
  | .fuel => .fuel

/-- `Parser::token`: the state-machine loop.  One unit of fuel is spent per
loop iteration and the remainder is handed to the raw-token reader. -/
def token : Nat → PState → TRes (Token × PState)
  | 0, _ => .fuel
  | n + 1, p =>
    match p.state with
    | .begin =>
      liftT (byte_order_mark p.lex) fun _ l =>
      liftT (whitespace l) fun sp l =>
      if sp then token n { p with lex := l, state := .prologue }
      else
        liftT (raw_token n l) fun t l =>
        match t with
        | .xmlDecl => token n { p with lex := l, state := .prologue }
        | t => token n { p with lex := l, lastToken := some t, state := .prologue }
    | .prologue =>
      let pick : PRes (RawToken × LexState) :=
        match p.lastToken with
        | some t => .ok (t, p.lex)
        | none =>
          match whitespace p.lex with
          | .ok (_, l) => raw_token n l
          | .err e => .err e
          | .fuel => .fuel
      match pick with
      | .err e => .err e
      | .fuel => .fuel
      | .ok (t, l2) =>
        match t with
        | .doctypeDef (.doctypeDecl true) =>
          token n { p with lex := l2, lastToken := none, state := .internalDoctype }
        | .doctypeDef (.doctypeDecl false) =>
          token n { p with lex := l2, lastToken := none }
        | .startTag st =>
          .ok (.startTag st, { p with lex := l2, lastToken := none, state := .normal, tags := st.name :: p.tags })
        | .comment => token n { p with lex := l2, lastToken := none }
        | .procInst pr => .ok (.procInst pr, { p with lex := l2, lastToken := none })
        | _ => .err .unexpectedToken
    | .internalDoctype =>
      liftT (whitespace p.lex) fun _ l =>
      liftT (doctype_token n l) fun t l =>
      match t with
      | .doctypeDef (.doctypeDecl _) => .err .unexpectedToken
      | .doctypeDef .internalEnd => token n { p with lex := l, state := .prologue }
      | .doctypeDef _ => token n { p with lex := l }
      | .comment => token n { p with lex := l }
      | .procInst pr => .ok (.procInst pr, { p with lex := l })
      | _ => .err .unexpectedToken
    | .normal =>
      liftT (raw_token n p.lex) fun t l =>
      match t with
      | .startTag st =>
        .ok (.startTag st, { p with lex := l, tags := st.name :: p.tags })
      | .endTag nm =>
        match p.tags with
        | [] => .panicked
        | top :: rest =>
          if top ≠ nm then .err .mismatchingStartEndTags
          else
            let st2 := if rest = [] then State.epilogue else p.state
            .ok (.endTag nm, { p with lex := l, tags := rest, state := st2 })
      | .charData d => .ok (.charData d, { p with lex := l })
      | .comment => token n { p with lex := l }
      | .procInst pr => .ok (.procInst pr, { p with lex := l })
      | _ => .err .unexpectedToken
    | .epilogue =>
      match whitespace p.lex with
      | .err .unexpectedEof => .ok (.endOfFile, { p with state := .atEnd })
      | .err e => .err e
      | .fuel => .fuel
      | .ok (_, l) =>
        match raw_token n l with
        | .err e => .err e
        | .fuel => .fuel
        | .ok (t, l2) =>
          match t with
          | .comment => token n { p with lex := l2 }
          | .procInst pr => .ok (.procInst pr, { p with lex := l2 })
          | _ => .err .unexpectedToken
    | .atEnd => .ok (.endOfFile, p)

/-- `Parser::from_reader`: fresh state over the reader's logical byte
stream. -/
def from_reader (raw : List Nat) : PState :=
  { lex := { stream := drain [] none raw, autoClose := none, entities := [] },
    state := .begin, lastToken := none, tags := [] }

/-- The parser states reachable by construction followed by successful
`token` calls (after an error the parser must be discarded). -/
inductive Reachable : PState → Prop
  | init (raw : List Nat) : Reachable (from_reader raw)
  | step {p q : PState} {n : Nat} {t : Token} :
      Reachable p → token n p = .ok (t, q) → Reachable q

/-! ## State-machine invariants -/

/-- The tag-stack invariant: in `State::Normal` the tag stack is never
empty. -/
def TagsInv (p : PState) : Prop :=
  p.state = .normal → p.tags ≠ []

/-- Whenever `token` returns `Ok(EndOfFile)`, the parser has moved to (or
stayed in) the terminal `End` state. -/
theorem token_eof_state (n : Nat) :
    ∀ p q : PState, token n p = .ok (.endOfFile, q) → q.state = .atEnd := by
  induction n with
  | zero => intro p q h; simp [token] at h
  | succ n ih =>
    intro p q h
    simp only [token, liftT] at h
    split at h
    all_goals repeat' split at h
    all_goals try (exact ih _ _ h)
    all_goals try simp_all
    all_goals (subst h; rfl)

/-- `token` preserves the tag-stack invariant across every successful
call. -/
theorem token_preserves_inv (n : Nat) :
    ∀ p : PState, TagsInv p →
      ∀ t q, token n p = .ok (t, q) → TagsInv q := by
  induction n with
  | zero => intro p hp t q h; simp [token] at h
  | succ n ih =>
    intro p hp t q h
    simp only [token, liftT] at h
    split at h
    all_goals repeat' split at h
    all_goals try (exact ih _ (by simp_all [TagsInv]) _ _ h)
    all_goals try (simp only [TRes.ok.injEq, Prod.mk.injEq] at h)
    all_goals try (obtain ⟨h1, h2⟩ := h; subst h2)
    all_goals try (intro hq)
    all_goals simp_all [TagsInv]

/-- Under the tag-stack invariant, `token` never reaches the
`tags.pop().unwrap()` panic. -/
theorem token_no_panic (n : Nat) :
    ∀ p : PState, TagsInv p → token n p ≠ .panicked := by
  induction n with
  | zero => intro p hp h; simp [token] at h
  | succ n ih =>
    intro p hp h
    simp only [token, liftT] at h
    split at h
    all_goals repeat' split at h
    all_goals try (exact ih _ (by simp_all [TagsInv]) h)
    all_goals simp_all [TagsInv]

/-- Every reachable parser state satisfies the tag-stack invariant. -/
theorem reachable_inv {p : PState} (h : Reachable p) : TagsInv p := by
  induction h with
  | init raw => intro hs; simp [from_reader] at hs
  | step _ hstep ih => exact token_preserves_inv _ _ ih _ _ hstep

/-! ## Concrete states used by the witnesses (document `<a></a>`) -/

def docA : List Nat := [60, 97, 62, 60, 47, 97, 62]

/-- The parser after reading `StartTag(a)` from `<a></a>`. -/
def normalStateA : PState :=
  { lex := { stream := [60, 47, 97, 62], autoClose := none, entities := [] },
    state := .normal, lastToken := none, tags := [[97]] }

/-- The parser after additionally reading `EndTag(a)`. -/
def epilogueStateA : PState :=
  { lex := { stream := [], autoClose := none, entities := [] },
    state := .epilogue, lastToken := none, tags := [] }

/-- The parser after additionally reading `EndOfFile`. -/
def endStateA : PState :=
  { lex := { stream := [], autoClose := none, entities := [] },
    state := .atEnd, lastToken := none, tags := [] }

/-! ## Claims C10, C2, C9, C1 -/

/-- C10: on an input source that yields no bytes at all, the very first
`token()` call returns `Err(UnexpectedEof)` (the byte-order-mark probe hits
the end of input) — not `Ok(EndOfFile)` and not any other token or error
kind — whatever the fuel. -/
theorem C10_empty_input_eof_error (n : Nat) :
    token (n + 1) (from_reader []) = .err .unexpectedEof := rfl

/-- C2: once `token()` has returned `Ok(EndOfFile)` the parser is in the
terminal `End` state, and every later `token()` call returns
`Ok(EndOfFile)` again with the state unchanged — never an error and never
any other token. -/
theorem C2_eof_idempotent {n : Nat} {p q : PState}
    (h : token n p = .ok (.endOfFile, q)) :
    ∀ m : Nat, token (m + 1) q = .ok (.endOfFile, q) := by
  have hq := token_eof_state n p q h
  intro m
  simp [token, hq]

theorem C2_witness :
    token 7 endStateA = .ok (.endOfFile, endStateA) :=
  C2_eof_idempotent (n := 20) (p := epilogueStateA) (by rfl) 6

/-- C9: every reachable parser state in `State::Normal` has a non-empty tag
stack, and consequently `token()` can never hit the
`self.tags.pop().unwrap()` panic. -/
theorem C9_normal_stack_nonempty {p : PState} (h : Reachable p) :
    (p.state = .normal → p.tags ≠ []) ∧ ∀ n, token n p ≠ .panicked :=
  ⟨reachable_inv h, fun n => token_no_panic n p (reachable_inv h)⟩

theorem C9_witness :
    (normalStateA.state = .normal → normalStateA.tags ≠ []) ∧
      ∀ n, token n normalStateA ≠ .panicked :=
  C9_normal_stack_nonempty
    (Reachable.step (Reachable.init docA)
      (show token 20 (from_reader docA) =
          .ok (.startTag ⟨[97], []⟩, normalStateA) from rfl))

/-- C1: in every reachable `Normal` state, when the raw-token reader
delivers `EndTag(nm)`, `token()` returns `Ok(Token::EndTag(nm))` exactly
when `nm` equals the most recently pushed unmatched start-tag name (the top
of the tag stack), moving to `Epilogue` when the stack becomes empty; on a
mismatch it returns `Err(MismatchingStartEndTags)` and no other error
kind. -/
theorem C1_end_tag_matches_stack {p : PState} {n : Nat} {nm : List Nat}
    {l : LexState} (hr : Reachable p) (hs : p.state = .normal)
    (ht : raw_token n p.lex = .ok (.endTag nm, l)) :
    ∃ top rest, p.tags = top :: rest ∧
      (top = nm →
        token (n + 1) p = .ok (.endTag nm, { p with lex := l, tags := rest, state := if rest = [] then .epilogue else .normal })) ∧
      (top ≠ nm → token (n + 1) p = .err .mismatchingStartEndTags) := by
  have hne : p.tags ≠ [] := reachable_inv hr hs
  obtain ⟨top, rest, htags⟩ : ∃ a l2, p.tags = a :: l2 := by
    cases h : p.tags with
    | nil => exact absurd h hne
    | cons a l2 => exact ⟨a, l2, rfl⟩
  refine ⟨top, rest, htags, ?_, ?_⟩
  · intro he
    subst he
    simp [token, hs, liftT, ht, htags]
  · intro hne2
    simp [token, hs, liftT, ht, htags, hne2]

theorem C1_witness :
    ∃ top rest, normalStateA.tags = top :: rest ∧
      (top = [97] →
        token 20 normalStateA = .ok (.endTag [97], { normalStateA with lex := ⟨[], none, []⟩, tags := rest, state := if rest = [] then .epilogue else .normal })) ∧
      (top ≠ [97] → token 20 normalStateA = .err .mismatchingStartEndTags) :=
  C1_end_tag_matches_stack
    (Reachable.step (Reachable.init docA)
      (show token 20 (from_reader docA) =
          .ok (.startTag ⟨[97], []⟩, normalStateA) from rfl))
    rfl rfl

/-! ## Claim C6: CDATA literalness -/

theorem endsWith_iff (l sfx : List Nat) :
    endsWith l sfx = true ↔
      sfx.length ≤ l.length ∧ l.drop (l.length - sfx.length) = sfx := by
  simp [endsWith]

/-- Scanning a literal keyword that is present consumes exactly it. -/
theorem expect_str_self (w : List Nat) :
    ∀ (tail : List Nat) (ac : Option (List Nat))
      (es : List (List Nat × List Nat)),
      expect_str w ⟨w ++ tail, ac, es⟩ = .ok (true, ⟨tail, ac, es⟩) := by
  induction w with
  | nil => intro tail ac es; simp [expect_str]
  | cons b w ih =>
    intro tail ac es
    simp [expect_str, next_byte_is, next_byte, pbind, ih]

theorem require_str_self (w : List Nat) (e : Error) (tail : List Nat)
    (ac : Option (List Nat)) (es : List (List Nat × List Nat)) :
    require_str w e ⟨w ++ tail, ac, es⟩ = .ok ((), ⟨tail, ac, es⟩) := by
  simp [require_str, pbind, expect_str_self]

/-- If no marker prefix appears before the end, the CDATA loop consumes
exactly `todo` and returns it. -/
theorem cdataLoop_run (todo : List Nat) :
    ∀ (acc rest : List Nat) (fuel : Nat) (ac : Option (List Nat))
      (es : List (List Nat × List Nat)),
      todo.length + 1 ≤ fuel →
      (∀ k, k < todo.length →
        endsWith (acc ++ todo.take k) [93, 93, 62] = false) →
      endsWith (acc ++ todo) [93, 93, 62] = true →
      cdataLoop fuel acc ⟨todo ++ rest, ac, es⟩ =
        .ok (acc ++ todo, ⟨rest, ac, es⟩) := by
  induction todo with
  | nil =>
    intro acc rest fuel ac es hf _ hend
    obtain ⟨f, rfl⟩ : ∃ f, fuel = f + 1 := ⟨fuel - 1, by omega⟩
    simp only [List.append_nil] at hend
    simp [cdataLoop, hend]
  | cons b todo ih =>
    intro acc rest fuel ac es hf hmid hend
    obtain ⟨f, rfl⟩ : ∃ f, fuel = f + 1 := ⟨fuel - 1, by omega⟩
    have h0 : endsWith acc [93, 93, 62] = false := by
      have := hmid 0 (by simp)
      simpa using this
    have hrec := ih (acc ++ [b]) rest f ac es (by simp at hf ⊢; omega)
      (fun k hk => by
        have := hmid (k + 1) (by simp; omega)
        simpa [List.take_cons, List.append_assoc] using this)
      (by simpa [List.append_assoc] using hend)
    simp [cdataLoop, h0, pbind, next_byte, hrec]

/-- The byte stream `x ++ "]]>"` always ends with the marker. -/
theorem endsWith_marker (x : List Nat) :
    endsWith (x ++ [93, 93, 62]) [93, 93, 62] = true := by
  rw [endsWith_iff]
  refine ⟨by simp, ?_⟩
  have h1 : (x ++ [93, 93, 62]).length - ([93, 93, 62] : List Nat).length = x.length := by
    simp
  rw [h1, List.drop_left]

/-- If the marker does not occur inside `body ++ "]]>"` before position
`body.length`, no proper prefix of that stream ends with the marker. -/
theorem no_early_marker {body : List Nat}
    (hno : ∀ i, i < body.length →
      ((body ++ [93, 93, 62]).drop i).take 3 ≠ [93, 93, 62]) :
    ∀ k, k < body.length + 3 →
      endsWith ((body ++ [93, 93, 62]).take k) [93, 93, 62] = false := by
  intro k hk
  by_contra hcon
  rw [Bool.not_eq_false, endsWith_iff] at hcon
  obtain ⟨hlen, hdrop⟩ := hcon
  have hlt : ((body ++ [93, 93, 62]).take k).length = k := by
    rw [List.length_take]
    simp
    omega
  have hm3 : ([93, 93, 62] : List Nat).length = 3 := rfl
  rw [hlt, hm3] at hlen
  rw [hlt, hm3, List.drop_take] at hdrop
  have h3 : k - (k - 3) = 3 := by omega
  rw [h3] at hdrop
  exact hno (k - 3) (by omega) hdrop

def docC : List Nat :=
  [60, 116, 62, 60, 33, 91, 67, 68, 65, 84, 65, 91, 60, 97, 62, 38, 97, 109,
    112, 59, 93, 93, 62, 60, 47, 116, 62]

/-- The public token outputs of `count` successive `token()` calls. -/
def tokens (fuel : Nat) : Nat → PState → List (TRes Token)
  | 0, _ => []
  | k + 1, p =>
    match token fuel p with
    | .ok (t, q) => .ok t :: tokens fuel k q
    | .err e => [.err e]
    | .fuel => [.fuel]
    | .panicked => [.panicked]

/-- C6: `Parser::cdata` returns the bytes strictly between `<![CDATA[` and
the first `]]>` verbatim as character data (no reference expansion is ever
invoked on them), and in particular `<t><![CDATA[<a>&amp;]]></t>` parses to
`StartTag(t), CharData("<a>&amp;"), EndTag(t), EndOfFile`. -/
theorem C6_cdata_literal :
    (∀ (body rest : List Nat) (ac : Option (List Nat))
       (es : List (List Nat × List Nat)) (fuel : Nat),
       body.length + 4 ≤ fuel →
       (∀ i, i < body.length →
         ((body ++ [93, 93, 62]).drop i).take 3 ≠ [93, 93, 62]) →
       utf8Valid body = true →
       cdata fuel ⟨[67, 68, 65, 84, 65, 91] ++ (body ++ [93, 93, 62] ++ rest), ac, es⟩ =
         .ok (.charData body, ⟨rest, ac, es⟩)) ∧
    tokens 99 4 (from_reader docC) =
      [.ok (.startTag ⟨[116], []⟩),
       .ok (.charData [60, 97, 62, 38, 97, 109, 112, 59]),
       .ok (.endTag [116]), .ok .endOfFile] := by
  constructor
  · intro body rest ac es fuel hf hno hutf
    have hloop := cdataLoop_run (body ++ [93, 93, 62]) [] rest fuel ac es
      (by simp at hf ⊢; omega)
      (fun k hk => by
        have := no_early_marker hno k (by simp at hk; omega)
        simpa using this)
      (by simpa using endsWith_marker body)
    simp only [List.nil_append] at hloop
    have hreq := require_str_self [67, 68, 65, 84, 65, 91] .malformedCData
      (body ++ [93, 93, 62] ++ rest) ac es
    simp only [cdata, pbind, hreq, hloop]
    have hlen : (body ++ [93, 93, 62]).length - 3 = body.length := by simp
    rw [hlen, List.take_left, hutf]
    simp
  · rfl

theorem C6_witness :
    cdata 99 ⟨[67, 68, 65, 84, 65, 91] ++
        ([60, 97, 62, 38, 97, 109, 112, 59] ++ [93, 93, 62] ++ []), none, []⟩ =
      .ok (.charData [60, 97, 62, 38, 97, 109, 112, 59], ⟨[], none, []⟩) :=
  C6_cdata_literal.1 [60, 97, 62, 38, 97, 109, 112, 59] [] none [] 99
    (by decide) (by decide) (by decide)

/-! ## Claim C7: the version literal -/

/-- The pattern the specification claims for version literals: the literal
`1.` followed by one or more decimal digits and nothing else (spec-side
definition, to be compared with the code). -/
def versionPatternSpec (content : List Nat) : Bool :=
  match content with
  | 49 :: 46 :: ds => !ds.isEmpty && ds.all (fun b => decide (48 ≤ b ∧ b ≤ 57))
  | _ => false

/-- Numeric value of a decimal digit run. -/
def digitsVal (ds : List Nat) : Nat :=
  ds.foldl (fun a b => a * 10 + (b - 48)) 0

/-- What `version_literal` actually accepts: `1.`, an optional `+` (passed
through by `u32::from_str_radix`), then one or more decimal digits whose
value fits in a `u32`. -/
def amendedVersionVal (content : List Nat) (v : Nat) : Prop :=
  ∃ ds, (content = [49, 46] ++ ds ∨ content = [49, 46, 43] ++ ds) ∧
    ds ≠ [] ∧ (∀ b ∈ ds, 48 ≤ b ∧ b ≤ 57) ∧ digitsVal ds = v ∧ v ≤ u32Max

theorem toDigit10_eq (b : Nat) :
    toDigit 10 b = if 48 ≤ b ∧ b ≤ 57 then some (b - 48) else none := by
  by_cases h1 : 48 ≤ b ∧ b ≤ 57
  · have h2 : b - 48 < 10 := by omega
    simp [toDigit, h1, h2]
  · by_cases h3 : 97 ≤ b ∧ b ≤ 122
    · have h4 : ¬ (b - 87 < 10) := by omega
      simp [toDigit, h1, h3, h4]
    · by_cases h5 : 65 ≤ b ∧ b ≤ 90
      · have h6 : ¬ (b - 55 < 10) := by omega
        simp [toDigit, h1, h3, h5, h6]
      · simp [toDigit, h1, h3, h5]

theorem digit_foldl_ge (ds : List Nat) :
    ∀ acc, acc ≤ ds.foldl (fun a b => a * 10 + (b - 48)) acc := by
  induction ds with
  | nil => intro acc; simp
  | cons b ds ih =>
    intro acc
    have h1 : acc ≤ acc * 10 + (b - 48) := by omega
    calc acc ≤ acc * 10 + (b - 48) := h1
      _ ≤ ds.foldl (fun a b => a * 10 + (b - 48)) (acc * 10 + (b - 48)) := ih _

theorem fromStrRadixGo10_eq (ds : List Nat) :
    ∀ acc v, acc ≤ u32Max →
      (fromStrRadixGo 10 acc ds = some v ↔
        (∀ b ∈ ds, 48 ≤ b ∧ b ≤ 57) ∧
          ds.foldl (fun a b => a * 10 + (b - 48)) acc = v ∧ v ≤ u32Max) := by
  induction ds with
  | nil =>
    intro acc v hacc
    simp only [fromStrRadixGo, List.foldl_nil]
    constructor
    · intro h
      cases h
      exact ⟨by simp, rfl, hacc⟩
    · rintro ⟨-, rfl, -⟩
      rfl
  | cons b ds ih =>
    intro acc v hacc
    simp only [fromStrRadixGo, toDigit10_eq, List.foldl_cons]
    by_cases hd : 48 ≤ b ∧ b ≤ 57
    · simp only [if_pos hd]
      by_cases hov : acc * 10 + (b - 48) ≤ u32Max
      · have h1 : acc * 10 ≤ u32Max := by omega
        simp only [if_pos h1, if_pos hov]
        rw [ih _ v hov]
        constructor
        · rintro ⟨hds, hval, hv⟩
          exact ⟨by simpa [hd] using hds, hval, hv⟩
        · rintro ⟨hds, hval, hv⟩
          exact ⟨fun c hc => hds c (by simp [hc]), hval, hv⟩
      · have hge := digit_foldl_ge ds (acc * 10 + (b - 48))
        constructor
        · intro h
          exfalso
          by_cases h1 : acc * 10 ≤ u32Max
          · simp [if_pos h1, if_neg hov] at h
          · simp [if_neg h1] at h
        · rintro ⟨-, hval, hv⟩
          omega
    · simp only [if_neg hd]
      constructor
      · intro h; cases h
      · rintro ⟨hds, -, -⟩
        exact absurd (hds b (by simp)) hd

theorem fromStrRadix10_eq (s : List Nat) (v : Nat) :
    fromStrRadix 10 s = some v ↔
      ∃ ds, (s = ds ∨ s = 43 :: ds) ∧ ds ≠ [] ∧
        (∀ b ∈ ds, 48 ≤ b ∧ b ≤ 57) ∧ digitsVal ds = v ∧ v ≤ u32Max := by
  have hgo : ∀ t, fromStrRadixGo 10 0 t = some v ↔
      (∀ b ∈ t, 48 ≤ b ∧ b ≤ 57) ∧ digitsVal t = v ∧ v ≤ u32Max := by
    intro t
    exact fromStrRadixGo10_eq t 0 v (by simp [u32Max])
  match s with
  | [] =>
    simp only [fromStrRadix]
    constructor
    · intro h; cases h
    · rintro ⟨ds, hds, hne, -, -, -⟩
      rcases hds with h | h
      · exact absurd h.symm hne
      · cases h
  | b :: rest =>
    by_cases hb : b = 43
    · subst hb
      match rest with
      | [] =>
        simp only [fromStrRadix]
        constructor
        · intro h; cases h
        · rintro ⟨ds, hds, hne, hdig, -, -⟩
          rcases hds with h | h
          · have : (48 ≤ 43 ∧ 43 ≤ 57) := hdig 43 (by rw [← h]; simp)
            omega
          · rw [List.cons.injEq] at h
            exact absurd h.2.symm hne
      | c :: rest2 =>
        simp only [fromStrRadix, if_true, eq_self_iff_true]
        rw [hgo]
        constructor
        · rintro ⟨hdig, hval, hv⟩
          exact ⟨c :: rest2, Or.inr rfl, by simp, hdig, hval, hv⟩
        · rintro ⟨ds, hds, hne, hdig, hval, hv⟩
          rcases hds with h | h
          · have : (48 ≤ 43 ∧ 43 ≤ 57) := hdig 43 (by rw [← h]; simp)
            omega
          · rw [List.cons.injEq] at h
            obtain ⟨-, h2⟩ := h
            subst h2
            exact ⟨hdig, hval, hv⟩
    · simp only [fromStrRadix, if_neg hb]
      rw [hgo]
      constructor
      · rintro ⟨hdig, hval, hv⟩
        exact ⟨b :: rest, Or.inl rfl, by simp, hdig, hval, hv⟩
      · rintro ⟨ds, hds, hne, hdig, hval, hv⟩
        rcases hds with h | h
        · subst h
          exact ⟨hdig, hval, hv⟩
        · rw [List.cons.injEq] at h
          exact absurd h.1 hb

theorem sysGo_run (content : List Nat) :
    ∀ (acc rest : List Nat) (q : Nat), q ∉ content →
      sysGo q acc (content ++ q :: rest) = .ok (acc ++ content, rest) := by
  induction content with
  | nil => intro acc rest q _; simp [sysGo]
  | cons b content ih =>
    intro acc rest q hq
    simp only [List.mem_cons, not_or] at hq
    have hbq : ¬ (b = q) := fun h => hq.1 h.symm
    simp only [List.cons_append, sysGo, if_neg hbq, List.append_eq]
    rw [ih (acc ++ [b]) rest q hq.2]
    simp

theorem system_literal_run (q : Nat) (content rest : List Nat)
    (ac : Option (List Nat)) (es : List (List Nat × List Nat))
    (hq : q = 39 ∨ q = 34) (hni : q ∉ content) :
    system_literal ⟨q :: (content ++ q :: rest), ac, es⟩ =
      (if utf8Valid content = true then .ok (content, ⟨rest, ac, es⟩)
       else .err .utf8Error) := by
  simp only [system_literal, pbind, next_byte]
  rw [if_pos hq]
  rw [sysGo_run content [] rest q hni]
  simp

theorem amendedVersionVal_cons (r2 : List Nat) (v : Nat) :
    amendedVersionVal (49 :: 46 :: r2) v ↔ fromStrRadix 10 r2 = some v := by
  rw [fromStrRadix10_eq]
  constructor
  · rintro ⟨ds, hds, hne, hdig, hval, hv⟩
    rcases hds with h | h
    · simp only [List.cons_append, List.nil_append, List.cons.injEq, true_and] at h
      exact ⟨ds, Or.inl h, hne, hdig, hval, hv⟩
    · simp only [List.cons_append, List.nil_append, List.cons.injEq, true_and] at h
      exact ⟨ds, Or.inr h, hne, hdig, hval, hv⟩
  · rintro ⟨ds, hds, hne, hdig, hval, hv⟩
    rcases hds with h | h
    · exact ⟨ds, Or.inl (by rw [h]; rfl), hne, hdig, hval, hv⟩
    · exact ⟨ds, Or.inr (by rw [h]; rfl), hne, hdig, hval, hv⟩

/-- C7 counterexample: the quoted content `1.+0` does not match the claimed
pattern `1.<digits>`, yet `version_literal` succeeds on it (with value 0)
instead of failing with `MalformedVersionLiteral`, because
`u32::from_str_radix` accepts a leading `+`. -/
theorem C7_counterexample :
    versionPatternSpec [49, 46, 43, 48] = false ∧
    version_literal ⟨[39, 49, 46, 43, 48, 39], none, []⟩ =
      .ok (0, ⟨[], none, []⟩) := by
  decide

/-- C7 (amended): for a quoted version literal, `version_literal` succeeds
exactly when the quoted content is `1.` followed by an optional `+` and one
or more decimal digits whose value fits in `u32`; all other valid-UTF-8
content fails with `MalformedVersionLiteral`, and non-UTF-8 content fails
with the wrapped UTF-8 error. -/
theorem C7_version_literal_amended (q : Nat) (content rest : List Nat)
    (ac : Option (List Nat)) (es : List (List Nat × List Nat))
    (hq : q = 39 ∨ q = 34) (hni : q ∉ content) :
    (utf8Valid content = true →
      ∀ v : Nat,
        (version_literal ⟨q :: (content ++ q :: rest), ac, es⟩ =
            .ok (v, ⟨rest, ac, es⟩) ↔ amendedVersionVal content v)) ∧
    (utf8Valid content = true → (∀ v, ¬ amendedVersionVal content v) →
      version_literal ⟨q :: (content ++ q :: rest), ac, es⟩ =
        .err .malformedVersionLiteral) ∧
    (utf8Valid content = false →
      version_literal ⟨q :: (content ++ q :: rest), ac, es⟩ =
        .err .utf8Error) := by
  have hsys := system_literal_run q content rest ac es hq hni
  refine ⟨?_, ?_, ?_⟩
  · intro hutf v
    simp only [version_literal, pbind, hsys, hutf, if_true]
    split
    · rename_i r2
      cases hfr : fromStrRadix 10 r2 with
      | some v2 =>
        rw [amendedVersionVal_cons, hfr]
        simp
      | none =>
        rw [amendedVersionVal_cons, hfr]
        simp
    · rename_i hexc
      constructor
      · intro h; cases h
      · rintro ⟨ds, hds, -, -, -, -⟩
        rcases hds with h | h
        · exact absurd (hexc ds (by simpa using h)) not_false
        · exact absurd (hexc (43 :: ds) (by simpa using h)) not_false
  · intro hutf hno
    simp only [version_literal, pbind, hsys, hutf, if_true]
    split
    · rename_i r2
      cases hfr : fromStrRadix 10 r2 with
      | some v2 =>
        exact absurd ((amendedVersionVal_cons r2 v2).mpr hfr) (hno v2)
      | none => simp
    · rfl
  · intro hutf
    simp only [version_literal, pbind, hsys, hutf]
    simp

theorem C7_witness :
    (utf8Valid [49, 46, 52, 50] = true →
      ∀ v : Nat,
        (version_literal ⟨34 :: ([49, 46, 52, 50] ++ 34 :: []), none, []⟩ =
            .ok (v, ⟨[], none, []⟩) ↔ amendedVersionVal [49, 46, 52, 50] v)) ∧
    (utf8Valid [49, 46, 52, 50] = true →
      (∀ v, ¬ amendedVersionVal [49, 46, 52, 50] v) →
      version_literal ⟨34 :: ([49, 46, 52, 50] ++ 34 :: []), none, []⟩ =
        .err .malformedVersionLiteral) ∧
    (utf8Valid [49, 46, 52, 50] = false →
      version_literal ⟨34 :: ([49, 46, 52, 50] ++ 34 :: []), none, []⟩ =
        .err .utf8Error) :=
  C7_version_literal_amended 34 [49, 46, 52, 50] [] none []
    (Or.inr rfl) (by decide)

/-! ## Claim C3: entity values in the internal subset -/

theorem ascii_utf8Valid (l : List Nat) (h : ∀ b ∈ l, b ≤ 127) :
    utf8Valid l = true := by
  induction l with
  | nil => rfl
  | cons b rest ih =>
    have hb : b ≤ 127 := h b (by simp)
    have ih2 := ih fun c hc => h c (by simp [hc])
    simp only [utf8Valid, utf8Scan, if_pos hb] at ih2 ⊢
    exact ih2

theorem nameByte_le {b : Nat} (h : isNameByte b = true) : b ≤ 127 := by
  simp only [isNameByte, decide_eq_true_eq] at h
  omega

theorem digit_isNameByte {b : Nat} (h : 48 ≤ b ∧ b ≤ 57) :
    isNameByte b = true := by
  simp only [isNameByte, decide_eq_true_eq]
  omega

theorem nameGo_run (nm : List Nat) :
    ∀ (acc : List Nat) (brk : Nat) (tail : List Nat),
      (∀ b ∈ nm, isNameByte b = true) → isNameByte brk = false → brk ≤ 128 →
      nameGo acc (nm ++ brk :: tail) = .ok (acc ++ nm, brk :: tail) := by
  induction nm with
  | nil =>
    intro acc brk tail _ hbrk hle
    have h128 : ¬ (128 < brk) := by omega
    simp [nameGo, hbrk, h128]
  | cons b nm ih =>
    intro acc brk tail hnm hbrk hle
    have hb : isNameByte b = true := hnm b (by simp)
    simp only [List.cons_append, nameGo, hb, Bool.true_or, if_true, List.append_eq]
    rw [ih (acc ++ [b]) brk tail (fun c hc => hnm c (by simp [hc])) hbrk hle]
    simp

theorem name_run (nm : List Nat) (brk : Nat) (tail : List Nat)
    (ac : Option (List Nat)) (es : List (List Nat × List Nat))
    (hne : nm ≠ []) (hnm : ∀ b ∈ nm, isNameByte b = true)
    (hbrk : isNameByte brk = false) (hle : brk ≤ 128) :
    name ⟨nm ++ brk :: tail, ac, es⟩ = .ok (nm, ⟨brk :: tail, ac, es⟩) := by
  simp only [name]
  rw [nameGo_run nm [] brk tail hnm hbrk hle]
  have hutf : utf8Valid nm = true :=
    ascii_utf8Valid nm fun b hb => le_trans (nameByte_le (hnm b hb)) (by omega)
  simp [hne, hutf]

/-- The UTF-8 encoding of every Unicode scalar value is accepted by the
UTF-8 validator. -/
theorem encodeUtf8_valid (v : Nat) (h : isScalar v = true) :
    utf8Valid (encodeUtf8 v) = true := by
  simp only [isScalar, decide_eq_true_eq] at h
  obtain ⟨h1, h2⟩ := h
  by_cases c1 : v < 128
  · have e1 : encodeUtf8 v = [v] := by simp [encodeUtf8, c1]
    rw [e1]
    simp only [utf8Valid, utf8Scan]
    rw [if_pos (by omega)]
  · by_cases c2 : v < 2048
    · have e1 : encodeUtf8 v = [192 + v / 64, 128 + v % 64] := by
        simp [encodeUtf8, c1, c2]
      rw [e1]
      simp only [utf8Valid, utf8Scan]
      rw [if_neg (by omega), if_pos (by omega), if_pos (by omega)]
    · by_cases c3 : v < 65536
      · have e1 : encodeUtf8 v =
            [224 + v / 4096, 128 + v / 64 % 64, 128 + v % 64] := by
          simp [encodeUtf8, c1, c2, c3]
        rw [e1]
        simp only [utf8Valid, utf8Scan]
        rw [if_neg (by omega), if_neg (by omega)]
        by_cases d1 : v < 4096
        · rw [if_pos (by omega), if_pos (by omega), if_pos (by omega)]
        · by_cases d2 : v < 53248
          · rw [if_neg (by omega), if_pos (by omega), if_pos (by omega),
              if_pos (by omega)]
          · by_cases d3 : v < 55296
            · rw [if_neg (by omega), if_neg (by omega), if_pos (by omega),
                if_pos (by omega), if_pos (by omega)]
            · rw [if_neg (by omega), if_pos (by omega), if_pos (by omega),
                if_pos (by omega)]
      · have e1 : encodeUtf8 v =
            [240 + v / 262144, 128 + v / 4096 % 64, 128 + v / 64 % 64,
              128 + v % 64] := by
          simp [encodeUtf8, c1, c2, c3]
        rw [e1]
        simp only [utf8Valid, utf8Scan]
        rw [if_neg (by omega), if_neg (by omega), if_neg (by omega),
          if_neg (by omega), if_neg (by omega)]
        by_cases e2 : v < 262144
        · rw [if_pos (by omega), if_pos (by omega), if_pos (by omega),
            if_pos (by omega)]
        · by_cases e3 : v < 1048576
          · rw [if_neg (by omega), if_pos (by omega), if_pos (by omega),
              if_pos (by omega), if_pos (by omega)]
          · rw [if_neg (by omega), if_neg (by omega), if_pos (by omega),
              if_pos (by omega), if_pos (by omega), if_pos (by omega)]

/-- A successful decimal `char_ref` consumes the digit run and the `;` and
appends the UTF-8 encoding of the code point. -/
theorem char_ref_dec_run (ds tail buf : List Nat) (ac : Option (List Nat))
    (es : List (List Nat × List Nat)) (v : Nat)
    (hdig : ∀ b ∈ ds, 48 ≤ b ∧ b ≤ 57)
    (hfr : fromStrRadix 10 ds = some v) (hsc : isScalar v = true) :
    char_ref 10 buf ⟨ds ++ 59 :: tail, ac, es⟩ =
      .ok (buf ++ encodeUtf8 v, ⟨tail, ac, es⟩) := by
  have hne : ds ≠ [] := by
    intro h
    subst h
    simp [fromStrRadix] at hfr
  have hn := name_run ds 59 tail ac es hne
    (fun b hb => digit_isNameByte (hdig b hb)) (by decide) (by omega)
  simp [char_ref, pbind, hn, require_byte, next_byte_is, next_byte, hfr, hsc]

/-- `entity_ref` after the `&`: reads the name and the `;`, then resolves
it (predefined first, then the custom table, else an error). -/
theorem entity_ref_run (nm tail buf : List Nat) (ac : Option (List Nat))
    (es : List (List Nat × List Nat)) (hne : nm ≠ [])
    (hnm : ∀ b ∈ nm, isNameByte b = true) :
    entity_ref buf ⟨nm ++ 59 :: tail, ac, es⟩ =
      (if nm = [108, 116] then .ok (buf ++ [60], ⟨tail, ac, es⟩)
      else if nm = [103, 116] then .ok (buf ++ [62], ⟨tail, ac, es⟩)
      else if nm = [97, 109, 112] then .ok (buf ++ [38], ⟨tail, ac, es⟩)
      else if nm = [97, 112, 111, 115] then .ok (buf ++ [39], ⟨tail, ac, es⟩)
      else if nm = [113, 117, 111, 116] then .ok (buf ++ [34], ⟨tail, ac, es⟩)
      else match lookupEntity es nm with
        | some v => .ok (buf, ⟨v ++ tail, ac, es⟩)
        | none => .err .unmappedEntityRef) := by
  have hn := name_run nm 59 tail ac es hne hnm (by decide) (by omega)
  simp [entity_ref, pbind, hn, require_byte, next_byte_is, next_byte]

theorem quote_facts {q : Nat} (hq : q = 39 ∨ q = 34) :
    ¬ (q = 37) ∧ ¬ (q = 38) := by
  rcases hq with h | h <;> simp [h]

/-- The entity-value scan loop passes plain bytes through until a `%` is
hit, which is rejected. -/
theorem entityValueLoop_pct (pre : List Nat) (q : Nat) :
    ∀ (buf rest : List Nat) (fuel : Nat) (ac : Option (List Nat))
      (es : List (List Nat × List Nat)),
      pre.length + 1 ≤ fuel →
      (∀ b ∈ pre, ¬ (b = 37 ∨ b = 38 ∨ b = q)) →
      entityValueLoop fuel q buf ⟨pre ++ 37 :: rest, ac, es⟩ =
        .err (.unsupportedFeature .parameterEntities) := by
  induction pre with
  | nil =>
    intro buf rest fuel ac es hf _
    obtain ⟨f, rfl⟩ : ∃ f, fuel = f + 1 := ⟨fuel - 1, by omega⟩
    simp [entityValueLoop, pbind, next_byte]
  | cons b pre ih =>
    intro buf rest fuel ac es hf hpre
    obtain ⟨f, rfl⟩ : ∃ f, fuel = f + 1 := ⟨fuel - 1, by omega⟩
    have hb := hpre b (by simp)
    simp only [not_or] at hb
    obtain ⟨hb37, hb38, hbq⟩ := hb
    have ihx := ih (buf ++ [b]) rest f ac es (by simp at hf ⊢; omega)
      (fun c hc => hpre c (by simp [hc]))
    simp [entityValueLoop, pbind, next_byte, hb37, hb38, hbq, ihx]

/-- The entity-value scan loop appends plain bytes (no `%`, `&` or quote)
to the buffer and stops at the closing quote. -/
theorem entityValueLoop_plain (q : Nat) (hq : q = 39 ∨ q = 34) (pre : List Nat) :
    ∀ (buf rest : List Nat) (fuel : Nat) (ac : Option (List Nat))
      (es : List (List Nat × List Nat)),
      pre.length + 1 ≤ fuel →
      (∀ b ∈ pre, ¬ (b = 37 ∨ b = 38 ∨ b = q)) →
      entityValueLoop fuel q buf ⟨pre ++ q :: rest, ac, es⟩ =
        .ok (buf ++ pre, ⟨rest, ac, es⟩) := by
  obtain ⟨h37, h38⟩ := quote_facts hq
  induction pre with
  | nil =>
    intro buf rest fuel ac es hf _
    obtain ⟨f, rfl⟩ : ∃ f, fuel = f + 1 := ⟨fuel - 1, by omega⟩
    simp [entityValueLoop, pbind, next_byte, h37, h38]
  | cons b pre ih =>
    intro buf rest fuel ac es hf hpre
    obtain ⟨f, rfl⟩ : ∃ f, fuel = f + 1 := ⟨fuel - 1, by omega⟩
    have hb := hpre b (by simp)
    simp only [not_or] at hb
    obtain ⟨hb37, hb38, hbq⟩ := hb
    have ihx := ih (buf ++ [b]) rest f ac es (by simp at hf ⊢; omega)
      (fun c hc => hpre c (by simp [hc]))
    simp [entityValueLoop, pbind, next_byte, hb37, hb38, hbq, ihx]

/-- C3 counterexample: inside a DOCTYPE entity value the general entity
reference `&lt;` is *resolved* — the value `'&lt;'` produces the expanded
text `<` (byte 60), not the four unexpanded reference bytes. -/
theorem C3_counterexample :
    entity_value 20 ⟨[39, 38, 108, 116, 59, 39], none, []⟩ =
      .ok ([60], ⟨[], none, []⟩) ∧
    ([60] : List Nat) ≠ [38, 108, 116, 59] := by
  decide

/-- C3 (amended): in `entity_value` (doctype.rs), character references are
expanded into the value; general entity references are *resolved* — the
five predefined names are substituted, a name not in the custom table
fails `UnmappedEntityRef`, and a configured custom entity's replacement is
pushed back onto the byte stream (the scan loop continues on
`v ++ tail`, so the replayed replacement becomes part of the value); a
parameter-entity `%` anywhere in the value is rejected with
`UnsupportedFeature(ParameterEntities)`. -/
theorem C3_entity_value_amended :
    (∀ (q v : Nat) (ds rest : List Nat) (n : Nat) (ac : Option (List Nat))
       (es : List (List Nat × List Nat)),
       (q = 39 ∨ q = 34) → (∀ b ∈ ds, 48 ≤ b ∧ b ≤ 57) →
       fromStrRadix 10 ds = some v → isScalar v = true →
       entity_value (n + 2) ⟨q :: 38 :: 35 :: (ds ++ 59 :: q :: rest), ac, es⟩ =
         .ok (encodeUtf8 v, ⟨rest, ac, es⟩)) ∧
    (∀ (q b2 : Nat) (nm rest : List Nat) (n : Nat) (ac : Option (List Nat))
       (es : List (List Nat × List Nat)),
       (q = 39 ∨ q = 34) →
       (nm, b2) ∈ ([([108, 116], 60), ([103, 116], 62), ([97, 109, 112], 38),
         ([97, 112, 111, 115], 39), ([113, 117, 111, 116], 34)] :
           List (List Nat × Nat)) →
       entity_value (n + 2) ⟨q :: 38 :: (nm ++ 59 :: q :: rest), ac, es⟩ =
         .ok ([b2], ⟨rest, ac, es⟩)) ∧
    (∀ (q : Nat) (nm rest : List Nat) (n : Nat) (ac : Option (List Nat))
       (es : List (List Nat × List Nat)),
       (q = 39 ∨ q = 34) → nm ≠ [] → (∀ b ∈ nm, isNameByte b = true) →
       nm ≠ [108, 116] → nm ≠ [103, 116] → nm ≠ [97, 109, 112] →
       nm ≠ [97, 112, 111, 115] → nm ≠ [113, 117, 111, 116] →
       lookupEntity es nm = none →
       entity_value (n + 2) ⟨q :: 38 :: (nm ++ 59 :: q :: rest), ac, es⟩ =
         .err .unmappedEntityRef) ∧
    (∀ (q : Nat) (pre rest : List Nat) (fuel : Nat) (ac : Option (List Nat))
       (es : List (List Nat × List Nat)),
       (q = 39 ∨ q = 34) → pre.length + 2 ≤ fuel →
       (∀ b ∈ pre, ¬ (b = 37 ∨ b = 38 ∨ b = q)) →
       entity_value fuel ⟨q :: (pre ++ 37 :: rest), ac, es⟩ =
         .err (.unsupportedFeature .parameterEntities)) ∧
    (∀ (q : Nat) (nm v tail buf : List Nat) (n : Nat) (ac : Option (List Nat))
       (es : List (List Nat × List Nat)),
       (q = 39 ∨ q = 34) → nm ≠ [] → (∀ b ∈ nm, isNameByte b = true) →
       nm ≠ [108, 116] → nm ≠ [103, 116] → nm ≠ [97, 109, 112] →
       nm ≠ [97, 112, 111, 115] → nm ≠ [113, 117, 111, 116] →
       lookupEntity es nm = some v →
       entityValueLoop (n + 1) q buf ⟨38 :: (nm ++ 59 :: tail), ac, es⟩ =
         entityValueLoop n q buf ⟨v ++ tail, ac, es⟩) ∧
    (∀ (q : Nat) (nm v rest : List Nat) (n : Nat) (ac : Option (List Nat))
       (es : List (List Nat × List Nat)),
       (q = 39 ∨ q = 34) → nm ≠ [] → (∀ b ∈ nm, isNameByte b = true) →
       nm ≠ [108, 116] → nm ≠ [103, 116] → nm ≠ [97, 109, 112] →
       nm ≠ [97, 112, 111, 115] → nm ≠ [113, 117, 111, 116] →
       lookupEntity es nm = some v → v.length ≤ n →
       (∀ b ∈ v, b ≤ 127 ∧ ¬ (b = 37 ∨ b = 38 ∨ b = q)) →
       entity_value (n + 2) ⟨q :: 38 :: (nm ++ 59 :: q :: rest), ac, es⟩ =
         .ok (v, ⟨rest, ac, es⟩)) := by
  have step : ∀ (q : Nat) (nm v tail buf : List Nat) (n : Nat)
      (ac : Option (List Nat)) (es : List (List Nat × List Nat)),
      (q = 39 ∨ q = 34) → nm ≠ [] → (∀ b ∈ nm, isNameByte b = true) →
      nm ≠ [108, 116] → nm ≠ [103, 116] → nm ≠ [97, 109, 112] →
      nm ≠ [97, 112, 111, 115] → nm ≠ [113, 117, 111, 116] →
      lookupEntity es nm = some v →
      entityValueLoop (n + 1) q buf ⟨38 :: (nm ++ 59 :: tail), ac, es⟩ =
        entityValueLoop n q buf ⟨v ++ tail, ac, es⟩ := by
    intro q nm v tail buf n ac es hq hne hnm hn1 hn2 hn3 hn4 hn5 hlk
    obtain ⟨m0, nm2, rfl⟩ : ∃ a l2, nm = a :: l2 := by
      cases h : nm with
      | nil => exact absurd h hne
      | cons a l2 => exact ⟨a, l2, rfl⟩
    have hm0 := hnm m0 (by simp)
    have hm0b : ¬ (m0 = 35) := by
      intro h
      rw [h] at hm0
      simp [isNameByte] at hm0
    have her := entity_ref_run (m0 :: nm2) tail buf ac es (by simp) hnm
    rw [if_neg hn1, if_neg hn2, if_neg hn3, if_neg hn4, if_neg hn5, hlk] at her
    simp only [List.cons_append] at her
    simp [entityValueLoop, pbind, next_byte, unget_byte, hm0b, her]
  refine ⟨?_, ?_, ?_, ?_, step, ?_⟩
  · intro q v ds rest n ac es hq hdig hfr hsc
    obtain ⟨h37, h38⟩ := quote_facts hq
    have hne : ds ≠ [] := by
      intro h
      subst h
      simp [fromStrRadix] at hfr
    obtain ⟨d0, ds2, rfl⟩ : ∃ a l2, ds = a :: l2 := by
      cases h : ds with
      | nil => exact absurd h hne
      | cons a l2 => exact ⟨a, l2, rfl⟩
    have hd0 := hdig d0 (by simp)
    have h120 : ¬ (d0 = 120) := by omega
    have h35 : ¬ (d0 = 35) := by omega
    have hd37 : ¬ (d0 = 37) := by omega
    have hcr := char_ref_dec_run (d0 :: ds2) (q :: rest) [] ac es v hdig hfr hsc
    simp only [List.nil_append, List.cons_append] at hcr
    simp [entity_value, pbind, next_byte, if_pos hq, entityValueLoop,
      unget_byte, h37, h38, h120, h35, hd37, hcr, encodeUtf8_valid v hsc]
  · intro q b2 nm rest n ac es hq hmem
    obtain ⟨h37, h38⟩ := quote_facts hq
    simp only [List.mem_cons, List.not_mem_nil, or_false, Prod.mk.injEq] at hmem
    rcases hmem with ⟨rfl, rfl⟩ | ⟨rfl, rfl⟩ | ⟨rfl, rfl⟩ | ⟨rfl, rfl⟩ | ⟨rfl, rfl⟩
    · have her := entity_ref_run [108, 116] (q :: rest) [] ac es (by decide) (by decide)
      simp only [List.nil_append, List.cons_append] at her
      simp [entity_value, pbind, next_byte, if_pos hq, entityValueLoop,
        unget_byte, h37, h38, her]
      decide
    · have her := entity_ref_run [103, 116] (q :: rest) [] ac es (by decide) (by decide)
      simp only [List.nil_append, List.cons_append] at her
      simp [entity_value, pbind, next_byte, if_pos hq, entityValueLoop,
        unget_byte, h37, h38, her]
      decide
    · have her := entity_ref_run [97, 109, 112] (q :: rest) [] ac es (by decide) (by decide)
      simp only [List.nil_append, List.cons_append] at her
      simp [entity_value, pbind, next_byte, if_pos hq, entityValueLoop,
        unget_byte, h37, h38, her]
      decide
    · have her := entity_ref_run [97, 112, 111, 115] (q :: rest) [] ac es (by decide) (by decide)
      simp only [List.nil_append, List.cons_append] at her
      simp [entity_value, pbind, next_byte, if_pos hq, entityValueLoop,
        unget_byte, h37, h38, her]
      decide
    · have her := entity_ref_run [113, 117, 111, 116] (q :: rest) [] ac es (by decide) (by decide)
      simp only [List.nil_append, List.cons_append] at her
      simp [entity_value, pbind, next_byte, if_pos hq, entityValueLoop,
        unget_byte, h37, h38, her]
      decide
  · intro q nm rest n ac es hq hne hnm hn1 hn2 hn3 hn4 hn5 hlk
    obtain ⟨h37, h38⟩ := quote_facts hq
    obtain ⟨m0, nm2, rfl⟩ : ∃ a l2, nm = a :: l2 := by
      cases h : nm with
      | nil => exact absurd h hne
      | cons a l2 => exact ⟨a, l2, rfl⟩
    have hm0 := hnm m0 (by simp)
    have hm0b : ¬ (m0 = 35) := by
      intro h
      rw [h] at hm0
      simp [isNameByte] at hm0
    have her := entity_ref_run (m0 :: nm2) (q :: rest) [] ac es (by simp) hnm
    rw [if_neg hn1, if_neg hn2, if_neg hn3, if_neg hn4, if_neg hn5, hlk] at her
    simp only [List.cons_append] at her
    simp [entity_value, pbind, next_byte, if_pos hq, entityValueLoop,
      unget_byte, h37, h38, hm0b, her]
  · intro q pre rest fuel ac es hq hf hpre
    have hloop := entityValueLoop_pct pre q [] rest fuel ac es (by omega) hpre
    simp [entity_value, pbind, next_byte, if_pos hq, hloop]
  · intro q nm v rest n ac es hq hne hnm hn1 hn2 hn3 hn4 hn5 hlk hfv hv
    have hstep := step q nm v (q :: rest) [] (n + 1) ac es hq hne hnm
      hn1 hn2 hn3 hn4 hn5 hlk
    have hplain := entityValueLoop_plain q hq v [] rest (n + 1) ac es
      (by omega) (fun b hb => (hv b hb).2)
    simp only [List.nil_append] at hplain
    rw [hplain] at hstep
    have hutf : utf8Valid v = true := ascii_utf8Valid v fun b hb => (hv b hb).1
    simp [entity_value, pbind, next_byte, if_pos hq, hstep, hutf]

theorem C3_witness :
    entity_value 9 ⟨39 :: 38 :: 35 :: ([54, 53] ++ 59 :: 39 :: []), none, []⟩ =
      .ok (encodeUtf8 65, ⟨[], none, []⟩) ∧
    entity_value 9 ⟨39 :: 38 :: ([108, 116] ++ 59 :: 39 :: []), none, []⟩ =
      .ok ([60], ⟨[], none, []⟩) ∧
    entity_value 9 ⟨39 :: 38 :: ([102, 111, 111] ++ 59 :: 39 :: []), none, []⟩ =
      .err .unmappedEntityRef ∧
    entity_value 9 ⟨39 :: ([97] ++ 37 :: []), none, []⟩ =
      .err (.unsupportedFeature .parameterEntities) ∧
    entityValueLoop 4 39 []
        ⟨38 :: ([101] ++ 59 :: 39 :: []), none, [([101], [120, 121])]⟩ =
      entityValueLoop 3 39 []
        ⟨[120, 121] ++ 39 :: [], none, [([101], [120, 121])]⟩ ∧
    entity_value 5 ⟨39 :: 38 :: ([101] ++ 59 :: 39 :: []), none,
        [([101], [120, 121])]⟩ =
      .ok ([120, 121], ⟨[], none, [([101], [120, 121])]⟩) :=
  ⟨C3_entity_value_amended.1 39 65 [54, 53] [] 7 none [] (Or.inl rfl)
      (by decide) (by decide) (by decide),
    C3_entity_value_amended.2.1 39 60 [108, 116] [] 7 none [] (Or.inl rfl)
      (by decide),
    C3_entity_value_amended.2.2.1 39 [102, 111, 111] [] 7 none [] (Or.inl rfl)
      (by decide) (by decide) (by decide) (by decide) (by decide) (by decide)
      (by decide) rfl,
    C3_entity_value_amended.2.2.2.1 39 [97] [] 9 none [] (Or.inl rfl)
      (by decide) (by decide),
    C3_entity_value_amended.2.2.2.2.1 39 [101] [120, 121] (39 :: []) [] 3
      none [([101], [120, 121])] (Or.inl rfl) (by decide) (by decide)
      (by decide) (by decide) (by decide) (by decide) (by decide) rfl,
    C3_entity_value_amended.2.2.2.2.2 39 [101] [120, 121] [] 3
      none [([101], [120, 121])] (Or.inl rfl) (by decide) (by decide)
      (by decide) (by decide) (by decide) (by decide) (by decide) rfl
      (by decide) (by decide)⟩

/-! ## Claim C4: self-closing tag equivalence -/

/-- A well-formed element or attribute name for the renderer: non-empty,
single-byte name characters. -/
def WfName (nm : List Nat) : Prop :=
  nm ≠ [] ∧ ∀ b ∈ nm, isNameByte b = true

/-- A well-formed rendered attribute value: valid UTF-8 with no quote,
`<` or `&`. -/
def WfValue (v : List Nat) : Prop :=
  utf8Valid v = true ∧ ∀ b ∈ v, ¬ (b = 34 ∨ b = 60 ∨ b = 38)

def WfAttrs (attrs : List Attr) : Prop :=
  ∀ a ∈ attrs, WfName a.name ∧ WfValue a.value

/-- Serialization of one attribute: ` name="value"`. -/
def renderAttr (a : Attr) : List Nat :=
  32 :: a.name ++ 61 :: 34 :: a.value ++ [34]

def renderAttrs : List Attr → List Nat
  | [] => []
  | a :: rest => renderAttr a ++ renderAttrs rest

/-- Enough fuel for `startTagLoop` over a rendered attribute list. -/
def attrsCost : List Attr → Nat
  | [] => 1
  | a :: rest => a.value.length + 2 + attrsCost rest

theorem nameByte_not_ws {b : Nat} (h : isNameByte b = true) :
    isWsByte b = false := by
  simp only [isNameByte, decide_eq_true_eq] at h
  simp only [isWsByte, decide_eq_false_iff_not]
  omega

theorem nameByte_ne {b : Nat} (h : isNameByte b = true) :
    b ≠ 47 ∧ b ≠ 62 ∧ b ≠ 63 ∧ b ≠ 33 ∧ b ≠ 60 ∧ b ≠ 38 ∧ b ≠ 34 := by
  simp only [isNameByte, decide_eq_true_eq] at h
  omega

theorem whitespace_nonws {b : Nat} (hb : isWsByte b = false) (rest : List Nat)
    (ac : Option (List Nat)) (es : List (List Nat × List Nat)) :
    whitespace ⟨b :: rest, ac, es⟩ = .ok (false, ⟨b :: rest, ac, es⟩) := by
  simp [whitespace, wsGo, hb]

theorem whitespace_space1 {b : Nat} (hb : isWsByte b = false) (rest : List Nat)
    (ac : Option (List Nat)) (es : List (List Nat × List Nat)) :
    whitespace ⟨32 :: b :: rest, ac, es⟩ = .ok (true, ⟨b :: rest, ac, es⟩) := by
  have h32 : isWsByte 32 = true := by decide
  simp [whitespace, wsGo, hb, h32]

/-- The attribute-value scan loop on plain bytes up to the closing quote. -/
theorem etLoop_attv_plain (v : List Nat) :
    ∀ (buf tail : List Nat) (fuel : Nat) (ac : Option (List Nat))
      (es : List (List Nat × List Nat)),
      v.length + 1 ≤ fuel → (∀ b ∈ v, ¬ (b = 34 ∨ b = 60 ∨ b = 38)) →
      expandedTextLoop fuel .attValueMode 34 buf ⟨v ++ 34 :: tail, ac, es⟩ =
        .ok (buf ++ v, ⟨tail, ac, es⟩) := by
  induction v with
  | nil =>
    intro buf tail fuel ac es hf _
    obtain ⟨f, rfl⟩ : ∃ f, fuel = f + 1 := ⟨fuel - 1, by omega⟩
    simp [expandedTextLoop, pbind, next_byte]
  | cons b v ih =>
    intro buf tail fuel ac es hf hv
    obtain ⟨f, rfl⟩ : ∃ f, fuel = f + 1 := ⟨fuel - 1, by omega⟩
    have hb := hv b (by simp)
    simp only [not_or] at hb
    obtain ⟨h34, h60, h38⟩ := hb
    have ihx := ih (buf ++ [b]) tail f ac es (by simp at hf ⊢; omega)
      (fun c hc => hv c (by simp [hc]))
    simp [expandedTextLoop, pbind, next_byte, h34, h60, h38, ihx]

theorem att_value_run (v tail : List Nat) (fuel : Nat)
    (ac : Option (List Nat)) (es : List (List Nat × List Nat))
    (hf : v.length + 1 ≤ fuel) (hwf : WfValue v) :
    att_value fuel ⟨34 :: (v ++ 34 :: tail), ac, es⟩ =
      .ok (v, ⟨tail, ac, es⟩) := by
  obtain ⟨hutf, hv⟩ := hwf
  have hloop := etLoop_attv_plain v [] tail fuel ac es hf hv
  simp only [List.nil_append] at hloop
  simp [att_value, expanded_text, pbind, next_byte, hloop, hutf]

theorem attr_run (anm v tail : List Nat) (fuel : Nat)
    (ac : Option (List Nat)) (es : List (List Nat × List Nat))
    (hn : WfName anm) (hv : WfValue v) (hf : v.length + 1 ≤ fuel) :
    attr fuel ⟨anm ++ 61 :: 34 :: (v ++ 34 :: tail), ac, es⟩ =
      .ok (⟨anm, v⟩, ⟨tail, ac, es⟩) := by
  have hname := name_run anm 61 (34 :: (v ++ 34 :: tail)) ac es hn.1 hn.2
    (by decide) (by omega)
  have hav := att_value_run v tail fuel ac es hf hv
  simp [attr, pbind, hname, equals, whitespace_nonws (by decide : isWsByte 61 = false),
    require_byte, next_byte_is, next_byte,
    whitespace_nonws (by decide : isWsByte 34 = false), hav]

theorem end_tag_run (nm tail : List Nat) (ac : Option (List Nat))
    (es : List (List Nat × List Nat)) (hn : WfName nm) :
    end_tag ⟨nm ++ 62 :: tail, ac, es⟩ = .ok (.endTag nm, ⟨tail, ac, es⟩) := by
  have hname := name_run nm 62 tail ac es hn.1 hn.2 (by decide) (by omega)
  simp [end_tag, pbind, hname, whitespace_nonws (by decide : isWsByte 62 = false),
    require_byte, next_byte_is, next_byte]

/-- The start-tag attribute loop over a rendered attribute list, ending
either in `/>` (schedules the auto-close) or `>`. -/
theorem startTagLoop_run (attrs : List Attr) :
    ∀ (acc : List Attr) (nm rest : List Nat) (fuel : Nat) (sc : Bool)
      (ac : Option (List Nat)) (es : List (List Nat × List Nat)),
      attrsCost attrs ≤ fuel → WfAttrs attrs →
      startTagLoop fuel nm acc
          ⟨renderAttrs attrs ++ (if sc then [47, 62] else [62]) ++ rest, ac, es⟩ =
        .ok (.startTag ⟨nm, acc ++ attrs⟩,
          ⟨rest, if sc then some nm else ac, es⟩) := by
  induction attrs with
  | nil =>
    intro acc nm rest fuel sc ac es hf _
    obtain ⟨f, rfl⟩ : ∃ f, fuel = f + 1 := ⟨fuel - 1, by simp [attrsCost] at hf; omega⟩
    cases sc with
    | true =>
      simp [renderAttrs, startTagLoop, pbind,
        whitespace_nonws (by decide : isWsByte 47 = false), next_byte,
        require_byte, next_byte_is]
    | false =>
      simp [renderAttrs, startTagLoop, pbind,
        whitespace_nonws (by decide : isWsByte 62 = false), next_byte]
  | cons a attrs ih =>
    intro acc nm rest fuel sc ac es hf hwf
    obtain ⟨f, rfl⟩ : ∃ f, fuel = f + 1 := ⟨fuel - 1, by simp [attrsCost] at hf; omega⟩
    obtain ⟨hnm, hval⟩ := hwf a (by simp)
    obtain ⟨n0, nm2, hna⟩ : ∃ c l2, a.name = c :: l2 := by
      cases h : a.name with
      | nil => exact absurd h hnm.1
      | cons c l2 => exact ⟨c, l2, rfl⟩
    have hn0 : isNameByte n0 = true := hnm.2 n0 (by rw [hna]; simp)
    obtain ⟨hn47, hn62, -, -, -, -, -⟩ := nameByte_ne hn0
    have hws := whitespace_space1 (nameByte_not_ws hn0)
      (nm2 ++ 61 :: 34 :: (a.value ++ 34 :: (renderAttrs attrs ++
        (if sc then [47, 62] else [62]) ++ rest))) ac es
    have hattr := attr_run a.name a.value
      (renderAttrs attrs ++ (if sc then [47, 62] else [62]) ++ rest) f ac es
      hnm hval (by simp [attrsCost] at hf; omega)
    have hrec := ih (acc ++ [a]) nm rest f sc ac es
      (by simp [attrsCost] at hf; omega) (fun b hb => hwf b (by simp [hb]))
    have heta : (⟨a.name, a.value⟩ : Attr) = a := by cases a; rfl
    rw [heta] at hattr
    rw [hna] at hattr
    simp only [List.cons_append, List.append_assoc] at hattr hrec hws ⊢
    simp [renderAttrs, renderAttr, startTagLoop, pbind, hna, hws, next_byte,
      hn47, hn62, unget_byte, hattr, hrec]

/-- `start_tag` on a rendered name and attribute list, for both terminator
forms. -/
theorem start_tag_run (nm : List Nat) (attrs : List Attr) (rest : List Nat)
    (fuel : Nat) (sc : Bool) (ac : Option (List Nat))
    (es : List (List Nat × List Nat)) (hnm : WfName nm) (hattrs : WfAttrs attrs)
    (hf : attrsCost attrs ≤ fuel) :
    start_tag fuel
        ⟨nm ++ (renderAttrs attrs ++ (if sc then [47, 62] else [62]) ++ rest), ac, es⟩ =
      .ok (.startTag ⟨nm, attrs⟩, ⟨rest, if sc then some nm else ac, es⟩) := by
  cases attrs with
  | nil =>
    cases sc with
    | true =>
      have hloop := startTagLoop_run [] [] nm rest fuel true ac es hf hattrs
      rw [show (if (true : Bool) = true then ([47, 62] : List Nat) else [62]) = [47, 62] from rfl,
        show (if (true : Bool) = true then some nm else ac) = some nm from rfl] at hloop
      have hname := name_run nm 47 (62 :: rest) ac es hnm.1 hnm.2
        (by decide) (by omega)
      simp only [renderAttrs, List.nil_append, List.cons_append] at hloop
      simp [start_tag, pbind, renderAttrs, hname, hloop]
    | false =>
      have hloop := startTagLoop_run [] [] nm rest fuel false ac es hf hattrs
      rw [show (if (false : Bool) = true then ([47, 62] : List Nat) else [62]) = [62] from rfl,
        show (if (false : Bool) = true then some nm else ac) = ac from rfl] at hloop
      have hname := name_run nm 62 rest ac es hnm.1 hnm.2 (by decide) (by omega)
      simp only [renderAttrs, List.nil_append, List.cons_append] at hloop
      simp [start_tag, pbind, renderAttrs, hname, hloop]
  | cons a attrs2 =>
    have hloop := startTagLoop_run (a :: attrs2) [] nm rest fuel sc ac es hf hattrs
    simp only [List.nil_append] at hloop
    have hname := name_run nm 32
      ((a.name ++ 61 :: 34 :: a.value ++ [34]) ++ renderAttrs attrs2 ++
        (if sc then [47, 62] else [62]) ++ rest) ac es hnm.1 hnm.2
      (by decide) (by omega)
    simp only [renderAttrs, renderAttr, List.nil_append, List.cons_append, List.append_assoc] at hloop hname ⊢
    simp [start_tag, pbind, hname, hloop]

/-- C4: parsing `<t .../>` yields exactly the raw-token pair
`StartTag, EndTag` and leaves the parser in exactly the same state as
parsing `<t ...></t>` at the same position, so the public token sequence
from here on is identical; the token-level conjunct shows the two public
tokens and the identical successor state in `State::Normal`. -/
theorem C4_self_closing_equiv (nm : List Nat) (attrs : List Attr)
    (rest : List Nat) (es : List (List Nat × List Nat)) (fuel : Nat)
    (hnm : WfName nm) (hattrs : WfAttrs attrs) (hf : attrsCost attrs ≤ fuel) :
    ∃ la lc : LexState,
      raw_token fuel ⟨60 :: (nm ++ (renderAttrs attrs ++ [47, 62] ++ rest)), none, es⟩ =
        .ok (.startTag ⟨nm, attrs⟩, la) ∧
      raw_token fuel la = .ok (.endTag nm, ⟨rest, none, es⟩) ∧
      raw_token fuel ⟨60 :: (nm ++ (renderAttrs attrs ++ [62] ++ (60 :: 47 :: (nm ++ 62 :: rest)))), none, es⟩ =
        .ok (.startTag ⟨nm, attrs⟩, lc) ∧
      raw_token fuel lc = .ok (.endTag nm, ⟨rest, none, es⟩) ∧
      ∀ tg : List (List Nat), ∃ qf : PState,
        token (fuel + 1) ⟨⟨60 :: (nm ++ (renderAttrs attrs ++ [47, 62] ++ rest)), none, es⟩, .normal, none, tg⟩ =
          .ok (.startTag ⟨nm, attrs⟩, ⟨la, .normal, none, nm :: tg⟩) ∧
        token (fuel + 1) ⟨la, .normal, none, nm :: tg⟩ = .ok (.endTag nm, qf) ∧
        token (fuel + 1) ⟨⟨60 :: (nm ++ (renderAttrs attrs ++ [62] ++ (60 :: 47 :: (nm ++ 62 :: rest)))), none, es⟩, .normal, none, tg⟩ =
          .ok (.startTag ⟨nm, attrs⟩, ⟨lc, .normal, none, nm :: tg⟩) ∧
        token (fuel + 1) ⟨lc, .normal, none, nm :: tg⟩ = .ok (.endTag nm, qf) := by
  obtain ⟨n0, nm2, hn⟩ : ∃ c l2, nm = c :: l2 := by
    cases h : nm with
    | nil => exact absurd h hnm.1
    | cons c l2 => exact ⟨c, l2, rfl⟩
  have hn0 : isNameByte n0 = true := hnm.2 n0 (by rw [hn]; simp)
  obtain ⟨h47, h62, h63, h33, h60, -, -⟩ := nameByte_ne hn0
  have hst1 := start_tag_run nm attrs rest fuel true none es hnm hattrs hf
  have hst2 := start_tag_run nm attrs (60 :: 47 :: (nm ++ 62 :: rest)) fuel
    false none es hnm hattrs hf
  have het := end_tag_run nm rest none es hnm
  have hraw1 : raw_token fuel
      ⟨60 :: (nm ++ (renderAttrs attrs ++ [47, 62] ++ rest)), none, es⟩ =
      .ok (.startTag ⟨nm, attrs⟩, ⟨rest, some nm, es⟩) := by
    rw [hn] at hst1 ⊢
    simp only [eq_self_iff_true, if_true] at hst1
    simp only [List.cons_append, List.append_assoc, List.nil_append] at hst1 ⊢
    simp [raw_token, pbind, next_byte, h47, h63, h33, unget_byte, hst1]
  have hraw2 : raw_token fuel ⟨rest, some nm, es⟩ =
      .ok (.endTag nm, ⟨rest, none, es⟩) := by
    simp [raw_token]
  have hraw3 : raw_token fuel
      ⟨60 :: (nm ++ (renderAttrs attrs ++ [62] ++ (60 :: 47 :: (nm ++ 62 :: rest)))), none, es⟩ =
      .ok (.startTag ⟨nm, attrs⟩, ⟨60 :: 47 :: (nm ++ 62 :: rest), none, es⟩) := by
    rw [hn] at hst2 ⊢
    simp only [Bool.false_eq_true, if_false] at hst2
    simp only [List.cons_append, List.append_assoc, List.nil_append] at hst2 ⊢
    simp [raw_token, pbind, next_byte, h47, h63, h33, unget_byte, hst2]
  have hraw4 : raw_token fuel ⟨60 :: 47 :: (nm ++ 62 :: rest), none, es⟩ =
      .ok (.endTag nm, ⟨rest, none, es⟩) := by
    simp [raw_token, pbind, next_byte, het]
  refine ⟨⟨rest, some nm, es⟩, ⟨60 :: 47 :: (nm ++ 62 :: rest), none, es⟩,
    hraw1, hraw2, hraw3, hraw4, ?_⟩
  simp only [List.cons_append, List.append_assoc, List.nil_append] at hraw1 hraw3
  intro tg
  refine ⟨⟨⟨rest, none, es⟩, if tg = [] then .epilogue else .normal, none, tg⟩,
    ?_, ?_, ?_, ?_⟩
  · simp [token, liftT, hraw1]
  · simp [token, liftT, hraw2]
  · simp [token, liftT, hraw3]
  · simp [token, liftT, hraw4]

theorem C4_witness :
    ∃ la lc : LexState,
      raw_token 9 ⟨60 :: ([97] ++ (renderAttrs [⟨[98], [99]⟩] ++ [47, 62] ++ [])), none, []⟩ =
        .ok (.startTag ⟨[97], [⟨[98], [99]⟩]⟩, la) ∧
      raw_token 9 la = .ok (.endTag [97], ⟨[], none, []⟩) ∧
      raw_token 9 ⟨60 :: ([97] ++ (renderAttrs [⟨[98], [99]⟩] ++ [62] ++ (60 :: 47 :: ([97] ++ 62 :: [])))), none, []⟩ =
        .ok (.startTag ⟨[97], [⟨[98], [99]⟩]⟩, lc) ∧
      raw_token 9 lc = .ok (.endTag [97], ⟨[], none, []⟩) ∧
      ∀ tg : List (List Nat), ∃ qf : PState,
        token 10 ⟨⟨60 :: ([97] ++ (renderAttrs [⟨[98], [99]⟩] ++ [47, 62] ++ [])), none, []⟩, .normal, none, tg⟩ =
          .ok (.startTag ⟨[97], [⟨[98], [99]⟩]⟩, ⟨la, .normal, none, [97] :: tg⟩) ∧
        token 10 ⟨la, .normal, none, [97] :: tg⟩ = .ok (.endTag [97], qf) ∧
        token 10 ⟨⟨60 :: ([97] ++ (renderAttrs [⟨[98], [99]⟩] ++ [62] ++ (60 :: 47 :: ([97] ++ 62 :: [])))), none, []⟩, .normal, none, tg⟩ =
          .ok (.startTag ⟨[97], [⟨[98], [99]⟩]⟩, ⟨lc, .normal, none, [97] :: tg⟩) ∧
        token 10 ⟨lc, .normal, none, [97] :: tg⟩ = .ok (.endTag [97], qf) :=
  C4_self_closing_equiv [97] [⟨[98], [99]⟩] [] [] 9
    ⟨by decide, by decide⟩
    (by intro a ha; simp only [List.mem_singleton] at ha; subst ha
        exact ⟨⟨by decide, by decide⟩, by decide, by decide⟩)
    (by decide)

end Xml
